import Mathlib

/-!
Verification of the buddy allocator (buddy.c / buddy.h).

The C program manages a region `g_memory` of `2^MAX_ORDER` bytes, a page
descriptor table `g_pages` (one `page_t` per `2^MIN_ORDER`-byte page) and an
array `free_area` of intrusive circular doubly-linked lists, one per order.

Shallow embedding conventions:
* Addresses are byte offsets from `g_memory` (so `g_memory` itself is `0`);
  "lies within the region" is `addr < 2^MAX_ORDER`.
* A free list is the list of page indices of the `page_t` records linked into
  `free_area[o]`, most recently inserted first (`list_add` inserts at the head,
  `free_area[o].next` is the most recently inserted node).
* `g_pages[i].blockOrder` is an `Int` (the C field is `int`, set to `-1` by
  `buddy_init`); `g_pages[i].blockAddress` is a byte offset.
* The lists `free_area[0] .. free_area[MIN_ORDER-1]` are never initialized by
  `buddy_init` (it only initializes orders `MIN_ORDER..MAX_ORDER`).  They are
  zero-initialized globals, so their `next` field is `NULL`: `list_empty` on
  them is `false` (`NULL != &free_area[i]`) and `list_entry(free_area[i].next)`
  then dereferences an invalid pointer.  Reading them is undefined behavior,
  modelled as `Except.error ()`.  Likewise `buddy_free` on a page whose
  `blockOrder` is negative would evaluate `1 << i` with `i < 0`, which is
  undefined behavior, modelled as `Except.error ()`.
-/

def MIN_ORDER : Nat := 12

def MAX_ORDER : Nat := 20

/-- `#define PAGE_SIZE (1<<MIN_ORDER)` -/
def PAGE_SIZE : Nat := 2 ^ MIN_ORDER

/-- number of entries of `g_pages`: `(1<<MAX_ORDER)/PAGE_SIZE` -/
def NPAGES : Nat := 2 ^ MAX_ORDER / PAGE_SIZE

/-- `#define PAGE_TO_ADDR(page_idx) (void *)((page_idx*PAGE_SIZE) + g_memory)` -/
def PAGE_TO_ADDR (i : Nat) : Nat := i * PAGE_SIZE

/-- `#define ADDR_TO_PAGE(addr) ((unsigned long)((void *)addr - (void *)g_memory) / PAGE_SIZE)` -/
def ADDR_TO_PAGE (a : Nat) : Nat := a / PAGE_SIZE

/-- `#define BUDDY_ADDR(addr, o) (void *)((((unsigned long)addr - (unsigned long)g_memory) ^ (1<<o)) + (unsigned long)g_memory)` -/
def BUDDY_ADDR (a : Nat) (o : Nat) : Nat := a ^^^ 2 ^ o

/-- The mutable global state of the allocator: the `blockOrder` and
`blockAddress` fields of `g_pages` (indexed by page number) and the contents of
`free_area` (indexed by order; each entry lists the page indices of the
descriptors linked into that order's list, head of the list first). -/
structure BuddyState where
  blockOrder : Nat → Int
  blockAddress : Nat → Nat
  free_area : Nat → List Nat

/-- `list_add(&g_pages[p].list, &free_area[o])`: insert page `p` at the head of
the free list of order `o`. -/
def list_add (o p : Nat) (fa : Nat → List Nat) : Nat → List Nat :=
  fun o' => if o' = o then p :: fa o' else fa o'

/-- `list_del(&g_pages[p].list)` for a page `p` linked into `free_area[o]`:
unlink the (first occurrence of the) node from that list. -/
def list_del (o p : Nat) (fa : Nat → List Nat) : Nat → List Nat :=
  fun o' => if o' = o then (fa o').erase p else fa o'

/-- Assignment `g_pages[p].blockOrder = v`. -/
def setOrder (p : Nat) (v : Int) (bo : Nat → Int) : Nat → Int :=
  fun q => if q = p then v else bo q

/-- Fuel-driven helper for `ceilLog2`; the fuel only makes the recursion
structural, `ceilLog2` supplies enough of it. -/
def ceilLog2Aux : Nat → Nat → Nat
  | 0, _ => 0
  | fuel + 1, n => if n ≤ 1 then 0 else ceilLog2Aux fuel ((n + 1) / 2) + 1

/-- `ceil(log2(size))` as computed by `buddy_alloc`.  For `size ≥ 1` this is
the least `r` with `size ≤ 2^r`; over the `int` range the C double-precision
expression `ceil(log2(size))` computes exactly this value (the gap between
`log2` of an integer and the nearest wrong integer is far larger than the
rounding error of a correctly-rounded double `log2`). -/
def ceilLog2 (n : Nat) : Nat := ceilLog2Aux n n

/-- `buddy_init()`: every page gets `blockAddress = PAGE_TO_ADDR(i)` and
`blockOrder = -1`, all (initialized) free lists are emptied, and page `0` is
inserted into the list of order `MAX_ORDER`.  (The C loop only writes the
table entries `0 ≤ i < NPAGES`; we define the functions on all of `Nat` by the
same formulas, and no operation under its precondition ever reads an entry
with `i ≥ NPAGES`.) -/
def buddy_init : BuddyState where
  blockOrder := fun _ => -1
  blockAddress := fun i => PAGE_TO_ADDR i
  free_area := list_add MAX_ORDER 0 fun _ => []

/-- The inner splitting loop of `buddy_alloc`:
`for (int j = i; j != block_order; j--) { right = &g_pages[ADDR_TO_PAGE(BUDDY_ADDR(left->blockAddress, (j-1)))]; right->blockOrder = (j-1); list_add(&right->list, &free_area[(j-1)]); }`.
Structural recursion on `j`; the case `j = 0 ≠ block_order` never arises at
the call site (there `j` starts at `i ≥ block_order`). -/
def splitLoop (left_addr block_order : Nat) : Nat → BuddyState → BuddyState
  | 0, s => s
  | j + 1, s =>
    if j + 1 = block_order then s
    else
      splitLoop left_addr block_order j
        { s with
          blockOrder := setOrder (ADDR_TO_PAGE (BUDDY_ADDR left_addr j)) (j : Int) s.blockOrder
          free_area := list_add j (ADDR_TO_PAGE (BUDDY_ADDR left_addr j)) s.free_area }

/-- The scan loop of `buddy_alloc`:
`for (int i = block_order; i <= MAX_ORDER; i++) { if (!list_empty(&free_area[i])) { ... return left->blockAddress; } }`
followed by `return NULL`.  `fuel` counts the remaining values of `i`
(`MAX_ORDER + 1 - i` at entry).  For `i < MIN_ORDER` the list head
`free_area[i]` was never initialized, so the iteration has undefined behavior
(see the header comment): `.error ()`. -/
def allocLoop (block_order : Nat) : Nat → Nat → BuddyState → Except Unit (Option Nat × BuddyState)
  | 0, _, s => .ok (none, s)
  | fuel + 1, i, s =>
    if i < MIN_ORDER then .error ()
    else
      match s.free_area i with
      | [] => allocLoop block_order fuel (i + 1) s
      | left :: rest =>
        let s₁ : BuddyState :=
          { s with
            blockOrder := setOrder left (block_order : Int) s.blockOrder
            free_area := fun o => if o = i then rest else s.free_area o }
        .ok (some (s.blockAddress left), splitLoop (s.blockAddress left) block_order i s₁)

/-- `void *buddy_alloc(int size)`.  `.ok none` is a `NULL` return, `.ok (some a)`
returns the address (offset) `a`, `.error ()` is undefined behavior. -/
def buddy_alloc (size : Nat) (s : BuddyState) : Except Unit (Option Nat × BuddyState) :=
  let block_order := ceilLog2 size
  if block_order > MAX_ORDER then .ok (none, s)
  else allocLoop block_order (MAX_ORDER + 1 - block_order) block_order s

/-- The merge loop of `buddy_free`:
`while (i < MAX_ORDER && isFree) { buddy = &g_pages[ADDR_TO_PAGE(BUDDY_ADDR(freePage->blockAddress, i))]; ... if (isFree) { list_del(&buddy->list); if (freePage > buddy) freePage = buddy; i++; } }`.
The scan `list_for_each` over `free_area[i]` sets `isFree` iff some node of
that list is the buddy's descriptor, i.e. iff the buddy's page index is a
member of the list.  The pointer comparison `freePage > buddy` compares the
two `g_pages` indices.  `fuel = MAX_ORDER - i` at entry, so `fuel > 0` iff
`i < MAX_ORDER`.  Returns the final `freePage` index, the final `i`, and the
updated free lists. -/
def freeLoop (ba : Nat → Nat) : Nat → Nat → Nat → (Nat → List Nat) → Nat × Nat × (Nat → List Nat)
  | 0, fp, i, fa => (fp, i, fa)
  | fuel + 1, fp, i, fa =>
    let buddy := ADDR_TO_PAGE (BUDDY_ADDR (ba fp) i)
    if buddy ∈ fa i then
      freeLoop ba fuel (if buddy < fp then buddy else fp) (i + 1) (list_del i buddy fa)
    else (fp, i, fa)

/-- `void buddy_free(void *addr)`.  Reads `freePage->blockOrder`; a negative
value (as left by `buddy_init`) would make the loop evaluate `1 << i` with a
negative `i`, which is undefined behavior: `.error ()`.  Otherwise runs the
merge loop and finally does `freePage->blockOrder = i; list_add(&freePage->list, &free_area[i]);`. -/
def buddy_free (addr : Nat) (s : BuddyState) : Except Unit BuddyState :=
  let fp := ADDR_TO_PAGE addr
  if s.blockOrder fp < 0 then .error ()
  else
    let r := freeLoop s.blockAddress (MAX_ORDER - (s.blockOrder fp).toNat) fp
      (s.blockOrder fp).toNat s.free_area
    .ok { s with
          blockOrder := setOrder r.1 (r.2.1 : Int) s.blockOrder
          free_area := list_add r.2.1 r.1 r.2.2 }

/-- `buddy_dump()`: for each order `o` from `MIN_ORDER` to `MAX_ORDER` it
prints the pair `cnt:(1<<o)/1024 K` where `cnt` is the number of nodes on
`free_area[o]`; we return the printed list of pairs. -/
def buddy_dump (s : BuddyState) : List (Nat × Nat) :=
  (List.range (MAX_ORDER - MIN_ORDER + 1)).map fun k =>
    ((s.free_area (MIN_ORDER + k)).length, 2 ^ (MIN_ORDER + k) / 1024)

/-! Concrete executions used by several claims. -/

/-- State after `buddy_init(); buddy_alloc(PAGE_SIZE);` (the allocation
succeeds, see `alloc_min_split_cascade`). -/
def st1 : BuddyState :=
  match buddy_alloc PAGE_SIZE buddy_init with
  | .ok (_, t) => t
  | .error _ => buddy_init

/-- Address returned by that first minimum-size allocation. -/
def addr1 : Option Nat :=
  match buddy_alloc PAGE_SIZE buddy_init with
  | .ok (a, _) => a
  | .error _ => none

/-- State after a second `buddy_alloc(PAGE_SIZE)`. -/
def st2 : BuddyState :=
  match buddy_alloc PAGE_SIZE st1 with
  | .ok (_, t) => t
  | .error _ => st1

/-- Address returned by the second minimum-size allocation. -/
def addr2 : Option Nat :=
  match buddy_alloc PAGE_SIZE st1 with
  | .ok (a, _) => a
  | .error _ => none

/-- State after `buddy_init(); buddy_alloc(1 << MAX_ORDER);`: the single
top-order block is handed out, every free list is empty. -/
def stTop : BuddyState :=
  match buddy_alloc (2 ^ MAX_ORDER) buddy_init with
  | .ok (_, t) => t
  | .error _ => buddy_init

/-- State after `buddy_init(); buddy_alloc(PAGE_SIZE); buddy_free(0);`. -/
def stF : BuddyState :=
  match buddy_free 0 st1 with
  | .ok t => t
  | .error _ => st1

/-- State after `buddy_init(); buddy_alloc(PAGE_SIZE); buddy_alloc(PAGE_SIZE); buddy_free(0);`. -/
def stC1 : BuddyState :=
  match buddy_free 0 st2 with
  | .ok t => t
  | .error _ => st2

/-- State after additionally `buddy_free(4096);` (freeing the second sibling). -/
def stC2 : BuddyState :=
  match buddy_free 4096 stC1 with
  | .ok t => t
  | .error _ => stC1

/-- Number of iterations of the `for (i = block_order; i <= MAX_ORDER; i++)`
scan of `buddy_alloc` (an iteration that returns or faults still counts). -/
def allocLoopSteps (block_order : Nat) : Nat → Nat → BuddyState → Nat
  | 0, _, _ => 0
  | fuel + 1, i, s =>
    if i < MIN_ORDER then 1
    else
      match s.free_area i with
      | [] => allocLoopSteps block_order fuel (i + 1) s + 1
      | _ :: _ => 1

/-- Iterations of the scan loop of `buddy_alloc size s`. -/
def buddy_allocSteps (size : Nat) (s : BuddyState) : Nat :=
  if ceilLog2 size > MAX_ORDER then 0
  else allocLoopSteps (ceilLog2 size) (MAX_ORDER + 1 - ceilLog2 size) (ceilLog2 size) s

/-- Number of iterations of the `while (i < MAX_ORDER && isFree)` merge loop
of `buddy_free`. -/
def freeLoopSteps (ba : Nat → Nat) : Nat → Nat → Nat → (Nat → List Nat) → Nat
  | 0, _, _, _ => 0
  | fuel + 1, fp, i, fa =>
    let buddy := ADDR_TO_PAGE (BUDDY_ADDR (ba fp) i)
    if buddy ∈ fa i then
      freeLoopSteps ba fuel (if buddy < fp then buddy else fp) (i + 1) (list_del i buddy fa) + 1
    else 1

/-- Iterations of the merge loop of `buddy_free addr s`. -/
def buddy_freeSteps (addr : Nat) (s : BuddyState) : Nat :=
  let fp := ADDR_TO_PAGE addr
  if s.blockOrder fp < 0 then 0
  else freeLoopSteps s.blockAddress (MAX_ORDER - (s.blockOrder fp).toNat) fp
    (s.blockOrder fp).toNat s.free_area

/-- Modelled from the spec: the merge loop of the Deallocation Engine as
stated in the design document.  State: the current block's base address and
order.  While `i < MAX_ORDER`: compute the buddy address at order `i` (XOR of
the base with `2^i`); scan the free list at order `i` for a descriptor whose
address matches the buddy address; if found, remove that descriptor, take the
lower of the two addresses as the merged base and advance to order `i + 1`;
otherwise stop. -/
def buddyFreeSpecLoop : Nat → Nat → Nat → (Nat → List Nat) → Nat × Nat × (Nat → List Nat)
  | 0, base, i, fa => (base, i, fa)
  | fuel + 1, base, i, fa =>
    match (fa i).find? (fun p => PAGE_TO_ADDR p == BUDDY_ADDR base i) with
    | some p => buddyFreeSpecLoop fuel (min base (BUDDY_ADDR base i)) (i + 1) (list_del i p fa)
    | none => (base, i, fa)

/-- Modelled from the spec: the Deallocation Engine of §4.2.  Resolve the
address to its page descriptor and read its recorded order; run the merge
loop; set the resulting block's order to the final `i` and insert it (exactly
one insertion) into the free list at order `i`. -/
def buddyFreeSpec (addr : Nat) (s : BuddyState) : BuddyState :=
  let i0 := (s.blockOrder (ADDR_TO_PAGE addr)).toNat
  let r := buddyFreeSpecLoop (MAX_ORDER - i0) addr i0 s.free_area
  { s with
    blockOrder := setOrder (ADDR_TO_PAGE r.1) (r.2.1 : Int) s.blockOrder
    free_area := list_add r.2.1 (ADDR_TO_PAGE r.1) r.2.2 }

/-- Does block `b` (start page, order) cover page `q`? -/
def coversB (b : Nat × Nat) (q : Nat) : Bool :=
  decide (b.1 ≤ q) && decide (q < b.1 + 2 ^ (b.2 - MIN_ORDER))

/-- Free blocks of orders `MIN_ORDER .. MIN_ORDER + K - 1` covering page `q`. -/
def freeCountUpTo (fa : Nat → List Nat) (q : Nat) : Nat → Nat
  | 0 => 0
  | K + 1 => freeCountUpTo fa q K +
      (fa (MIN_ORDER + K)).countP fun p => coversB (p, MIN_ORDER + K) q

/-- Free blocks covering page `q` (all orders `MIN_ORDER .. MAX_ORDER`). -/
def freeCount (fa : Nat → List Nat) (q : Nat) : Nat :=
  freeCountUpTo fa q (MAX_ORDER - MIN_ORDER + 1)

/-- Allocated blocks of the ghost list `A` covering page `q`. -/
def allocCount (A : List (Nat × Nat)) (q : Nat) : Nat :=
  A.countP fun ao => coversB (ADDR_TO_PAGE ao.1, ao.2) q

/-- Blocks (free or allocated) covering page `q`. -/
def totalCount (fa : Nat → List Nat) (A : List (Nat × Nat)) (q : Nat) : Nat :=
  freeCount fa q + allocCount A q

/-- The invariant of the allocator state together with the ghost list `A` of
live allocations (`(address, order)` as recorded by `buddy_alloc`). -/
structure BuddyInv (s : BuddyState) (A : List (Nat × Nat)) : Prop where
  ba_eq : ∀ p, s.blockAddress p = PAGE_TO_ADDR p
  fa_lo : ∀ o, o < MIN_ORDER → s.free_area o = []
  fa_hi : ∀ o, MAX_ORDER < o → s.free_area o = []
  fa_mem : ∀ o p, p ∈ s.free_area o → p < NPAGES ∧ 2 ^ (o - MIN_ORDER) ∣ p
  alloc_mem : ∀ ao ∈ A, MIN_ORDER ≤ ao.2 ∧ ao.2 ≤ MAX_ORDER ∧ ao.1 < 2 ^ MAX_ORDER ∧
    2 ^ ao.2 ∣ ao.1 ∧ s.blockOrder (ADDR_TO_PAGE ao.1) = (ao.2 : Int)
  cover : ∀ q, q < NPAGES → totalCount s.free_area A q = 1

/-- The states reachable by valid operation sequences from `buddy_init`,
together with the ghost list of live allocations: an `alloc` is valid for any
size whose execution is defined (sub-page sizes fault and therefore produce
no successor state), a `free` is valid for a currently allocated address. -/
inductive Reach : BuddyState → List (Nat × Nat) → Prop where
  | init : Reach buddy_init []
  | allocSome {s A size a t} : Reach s A → buddy_alloc size s = .ok (some a, t) →
      Reach t ((a, ceilLog2 size) :: A)
  | allocNone {s A size t} : Reach s A → buddy_alloc size s = .ok (none, t) → Reach t A
  | free {s A a o t} : Reach s A → (a, o) ∈ A → buddy_free a s = .ok t →
      Reach t (A.erase (a, o))

/-- The state produced by `buddy_free` when the merge loop is started at
order `i`: run the loop, then set the resulting head's order and insert it. -/
def freeFrom (addr i : Nat) (s : BuddyState) : BuddyState :=
  let r := freeLoop s.blockAddress (MAX_ORDER - i) (ADDR_TO_PAGE addr) i s.free_area
  { s with
    blockOrder := setOrder r.1 (r.2.1 : Int) s.blockOrder
    free_area := list_add r.2.1 r.1 r.2.2 }

/-- C3: immediately after `buddy_init()` the free-list state contains exactly
one free block at order `MAX_ORDER` (the block headed by page 0, the region
base) and zero free blocks at every order from `MIN_ORDER` to `MAX_ORDER - 1`,
and `buddy_dump` reports exactly these counts (together with the block sizes
in KiB). -/
theorem init_free_list_counts :
    buddy_init.free_area MAX_ORDER = [0] ∧
    buddy_init.free_area 12 = [] ∧ buddy_init.free_area 13 = [] ∧
    buddy_init.free_area 14 = [] ∧ buddy_init.free_area 15 = [] ∧
    buddy_init.free_area 16 = [] ∧ buddy_init.free_area 17 = [] ∧
    buddy_init.free_area 18 = [] ∧ buddy_init.free_area 19 = [] ∧
    buddy_dump buddy_init =
      [(0, 4), (0, 8), (0, 16), (0, 32), (0, 64), (0, 128), (0, 256), (0, 512), (1, 1024)] := by
  decide

/-- C4: starting from the post-init state, a single `buddy_alloc(PAGE_SIZE)`
(the minimum block size `2^MIN_ORDER`) succeeds returning address 0, and
leaves exactly one free block at every order `MIN_ORDER .. MAX_ORDER - 1` and
none at `MAX_ORDER`.  The one free block at order `o` is exactly the upper
half inserted by the split at order `o + 1`: its page is
`ADDR_TO_PAGE (BUDDY_ADDR 0 o)`, i.e. the block at address `0 + 2^o`, while
the lower half (address 0) stayed the allocation candidate and was finally
returned. -/
theorem alloc_min_split_cascade :
    addr1 = some 0 ∧
    st1.free_area 12 = [ADDR_TO_PAGE (BUDDY_ADDR 0 12)] ∧
    st1.free_area 13 = [ADDR_TO_PAGE (BUDDY_ADDR 0 13)] ∧
    st1.free_area 14 = [ADDR_TO_PAGE (BUDDY_ADDR 0 14)] ∧
    st1.free_area 15 = [ADDR_TO_PAGE (BUDDY_ADDR 0 15)] ∧
    st1.free_area 16 = [ADDR_TO_PAGE (BUDDY_ADDR 0 16)] ∧
    st1.free_area 17 = [ADDR_TO_PAGE (BUDDY_ADDR 0 17)] ∧
    st1.free_area 18 = [ADDR_TO_PAGE (BUDDY_ADDR 0 18)] ∧
    st1.free_area 19 = [ADDR_TO_PAGE (BUDDY_ADDR 0 19)] ∧
    st1.free_area 20 = [] ∧
    buddy_dump st1 =
      [(1, 4), (1, 8), (1, 16), (1, 32), (1, 64), (1, 128), (1, 256), (1, 512), (0, 1024)] := by
  decide

/-- C5: starting from the post-init state, allocating one minimum-size block
(which returns address 0) and then freeing that address restores the free-list
state to exactly one free block at `MAX_ORDER` (page 0) and zero free blocks
at every other order — the same free-list contents as `buddy_init` produced
(alloc then free is a round trip of the free-list state). -/
theorem alloc_free_roundtrip :
    addr1 = some 0 ∧ (buddy_free 0 st1).isOk = true ∧
    stF.free_area 12 = buddy_init.free_area 12 ∧
    stF.free_area 13 = buddy_init.free_area 13 ∧
    stF.free_area 14 = buddy_init.free_area 14 ∧
    stF.free_area 15 = buddy_init.free_area 15 ∧
    stF.free_area 16 = buddy_init.free_area 16 ∧
    stF.free_area 17 = buddy_init.free_area 17 ∧
    stF.free_area 18 = buddy_init.free_area 18 ∧
    stF.free_area 19 = buddy_init.free_area 19 ∧
    stF.free_area 20 = buddy_init.free_area 20 ∧
    stF.free_area MAX_ORDER = [0] := by
  decide

/-- C1 counterexample: the order computed by `buddy_alloc` for a requested
size is `ceil(log2(size))` with no lower clamp: for `size = 1` it is `0`, not
`max 0 MIN_ORDER = MIN_ORDER`.  Consequently `buddy_alloc 1` does not succeed
with a MIN_ORDER-promoted block: already in the post-init state its scan
starts at the never-initialized list head `free_area[0]` and faults
(undefined behavior, modelled `.error ()`). -/
theorem alloc_no_clamp_cex :
    ceilLog2 1 = 0 ∧ ¬ MIN_ORDER ≤ ceilLog2 1 ∧
    buddy_alloc 1 buddy_init = .error () :=
  ⟨by decide, by decide, rfl⟩

/-- C2 counterexample: in the reachable state `stTop` (post-init followed by
one successful `buddy_alloc (2^MAX_ORDER)`) every free list is empty, so for
`size = 1` (whose minimal order `r = ceilLog2 1 = 0` does not exceed
`MAX_ORDER`) the claim asserts that `buddy_alloc` returns NULL; instead the
scan faults at the never-initialized list head `free_area[0]` (undefined
behavior, modelled `.error ()`), which is not the NULL return `.ok none`. -/
theorem alloc_null_iff_cex :
    ceilLog2 1 ≤ MAX_ORDER ∧
    ((List.range (MAX_ORDER + 1)).all fun o => stTop.free_area o == []) = true ∧
    buddy_alloc 1 stTop = .error () :=
  ⟨by decide, by decide, rfl⟩

/-- C6 counterexample: in the reachable state `st2` (post-init followed by two
minimum-size allocations, which returned the sibling blocks at addresses `0`
and `4096 = BUDDY_ADDR 0 MIN_ORDER`, both allocated: order fields `MIN_ORDER`,
linked into no free list), freeing both siblings does NOT leave them merged
into a single free block of the next higher order `MIN_ORDER + 1 = 13`: the
merge cascades (the parent's buddy at order 13 is free, and so on), the free
list at order 13 ends up empty and the pair ends up inside the single free
block at order `MAX_ORDER`. -/
theorem free_siblings_cascade_cex :
    BUDDY_ADDR 0 MIN_ORDER = 4096 ∧
    addr1 = some 0 ∧ addr2 = some 4096 ∧
    st2.blockOrder 0 = (MIN_ORDER : Int) ∧ st2.blockOrder 1 = (MIN_ORDER : Int) ∧
    ((List.range (MAX_ORDER + 1)).all fun o =>
      decide (0 ∉ st2.free_area o) && decide (1 ∉ st2.free_area o)) = true ∧
    (buddy_free 0 st2).isOk = true ∧ (buddy_free 4096 stC1).isOk = true ∧
    stC2.free_area (MIN_ORDER + 1) = [] ∧
    stC2.free_area MAX_ORDER = [0] := by
  decide

/-! Characterization of `ceilLog2`: for `n ≥ 1` it is the least `r` with
`n ≤ 2^r`, which is the "minimal order `r` satisfying `2^r ≥ size`" of the
design document. -/

lemma ceilLog2Aux_le_pow : ∀ fuel n, n ≤ fuel → n ≤ 2 ^ ceilLog2Aux fuel n := by
  intro fuel
  induction fuel with
  | zero => intro n hn; interval_cases n; decide
  | succ fuel ih =>
    intro n hn
    unfold ceilLog2Aux
    split
    · omega
    · have h2 : 2 ≤ n := by omega
      have hm : (n + 1) / 2 ≤ fuel := by omega
      have := ih ((n + 1) / 2) hm
      have hpow : 2 ^ (ceilLog2Aux fuel ((n + 1) / 2) + 1) = 2 * 2 ^ ceilLog2Aux fuel ((n + 1) / 2) := by
        ring
      omega

lemma ceilLog2Aux_min : ∀ fuel n r, n ≤ fuel → n ≤ 2 ^ r → ceilLog2Aux fuel n ≤ r := by
  intro fuel
  induction fuel with
  | zero => intro n r _ _; simp [ceilLog2Aux]
  | succ fuel ih =>
    intro n r hn hr
    unfold ceilLog2Aux
    split
    · omega
    · have h2 : 2 ≤ n := by omega
      have hr1 : 1 ≤ r := by
        by_contra hcon
        have : r = 0 := by omega
        subst this
        simp at hr
        omega
      have hm : (n + 1) / 2 ≤ fuel := by omega
      have hpow : 2 ^ r = 2 * 2 ^ (r - 1) := by
        conv_lhs => rw [show r = (r - 1) + 1 by omega]
        ring
      have hmr : (n + 1) / 2 ≤ 2 ^ (r - 1) := by omega
      have := ih ((n + 1) / 2) (r - 1) hm hmr
      omega

lemma le_pow_ceilLog2 (n : Nat) : n ≤ 2 ^ ceilLog2 n :=
  ceilLog2Aux_le_pow n n le_rfl

lemma ceilLog2_le {n r : Nat} (h : n ≤ 2 ^ r) : ceilLog2 n ≤ r :=
  ceilLog2Aux_min n n r le_rfl h

/-! The NULL/failure behavior of the `buddy_alloc` scan. -/

/-- A NULL return of the scan loop leaves the state untouched. -/
lemma allocLoop_none_eq :
    ∀ fuel i bor s t, allocLoop bor fuel i s = .ok (none, t) → t = s := by
  intro fuel
  induction fuel with
  | zero =>
    intro i bor s t h
    simp [allocLoop] at h
    exact h.symm
  | succ fuel ih =>
    intro i bor s t h
    unfold allocLoop at h
    split at h
    · exact absurd h (by simp)
    · split at h
      · exact ih (i + 1) bor s t h
      · simp at h

/-- The scan loop returns NULL iff every scanned free list is empty
(given that the scan starts at an initialized order). -/
lemma allocLoop_none_iff :
    ∀ fuel i bor s, MIN_ORDER ≤ i →
      (allocLoop bor fuel i s = .ok (none, s) ↔
        ∀ i', i ≤ i' → i' < i + fuel → s.free_area i' = []) := by
  intro fuel
  induction fuel with
  | zero =>
    intro i bor s _
    simp [allocLoop]
    omega
  | succ fuel ih =>
    intro i bor s hi
    unfold allocLoop
    split
    · omega
    · split
      case h_1 hfa =>
        rw [ih (i + 1) bor s (by omega)]
        constructor
        · intro h i' h1 h2
          rcases Nat.eq_or_lt_of_le h1 with heq | hlt
          · exact heq ▸ hfa
          · exact h i' hlt (by omega)
        · intro h i' h1 h2
          exact h i' (by omega) (by omega)
      case h_2 left rest hfa =>
        simp only [Except.ok.injEq, Prod.mk.injEq, false_and, reduceCtorEq, false_iff]
        intro h
        have := h i le_rfl (by omega)
        rw [this] at hfa
        exact absurd hfa (by simp)

/-- C2 (amended): for `1 ≤ size`, `buddy_alloc size` returns NULL (leaving the
state unchanged) iff either the minimal order `r = ceilLog2 size` with
`2^r ≥ size` exceeds `MAX_ORDER`, or `r` is at least `MIN_ORDER` and every
free list at orders `r .. MAX_ORDER` is empty.  In particular for every
`size > 2^MAX_ORDER` the allocation fails with NULL.  (The original claim
omits the `MIN_ORDER ≤ r` guard: for `size ≤ 2^(MIN_ORDER-1)` the scan starts
below `MIN_ORDER` and faults on a never-initialized list head instead of
returning NULL — see `alloc_null_iff_cex`.) -/
theorem alloc_null_iff (size : Nat) (s : BuddyState) (h1 : 1 ≤ size) :
    (buddy_alloc size s = .ok (none, s) ↔
      (MAX_ORDER < ceilLog2 size ∨
        (MIN_ORDER ≤ ceilLog2 size ∧
          ∀ i, ceilLog2 size ≤ i → i ≤ MAX_ORDER → s.free_area i = []))) ∧
    (2 ^ MAX_ORDER < size → buddy_alloc size s = .ok (none, s)) := by
  have hmain : buddy_alloc size s = .ok (none, s) ↔
      (MAX_ORDER < ceilLog2 size ∨
        (MIN_ORDER ≤ ceilLog2 size ∧
          ∀ i, ceilLog2 size ≤ i → i ≤ MAX_ORDER → s.free_area i = [])) := by
    unfold buddy_alloc
    by_cases hr : MAX_ORDER < ceilLog2 size
    · simp [hr]
    · simp only [if_neg (by omega : ¬ ceilLog2 size > MAX_ORDER)]
      by_cases hr12 : MIN_ORDER ≤ ceilLog2 size
      · rw [allocLoop_none_iff (MAX_ORDER + 1 - ceilLog2 size) (ceilLog2 size) (ceilLog2 size) s hr12]
        constructor
        · intro h
          exact Or.inr ⟨hr12, fun i hi1 hi2 => h i hi1 (by omega)⟩
        · rintro (hc | ⟨-, h⟩)
          · omega
          · exact fun i' hi1 hi2 => h i' hi1 (by omega)
      · obtain ⟨fuel, hfuel⟩ : ∃ fuel, MAX_ORDER + 1 - ceilLog2 size = fuel + 1 := ⟨MAX_ORDER - ceilLog2 size, by omega⟩
        rw [hfuel]
        unfold allocLoop
        rw [if_pos (by omega)]
        simp only [reduceCtorEq, false_iff]
        omega
  refine ⟨hmain, fun hbig => ?_⟩
  rw [hmain]
  left
  by_contra hcon
  have : size ≤ 2 ^ ceilLog2 size := le_pow_ceilLog2 size
  have : (2 : Nat) ^ ceilLog2 size ≤ 2 ^ MAX_ORDER := Nat.pow_le_pow_right (by norm_num) (by omega)
  omega

/-- Witness for `alloc_null_iff`: a size one byte above the region size fails
with NULL from the post-init state. -/
theorem alloc_null_iff_witness :
    1 ≤ 2 ^ MAX_ORDER + 1 ∧ buddy_alloc (2 ^ MAX_ORDER + 1) buddy_init = .ok (none, buddy_init) :=
  ⟨by decide, (alloc_null_iff (2 ^ MAX_ORDER + 1) buddy_init (by decide)).2 (by decide)⟩

/-! Iteration counts of the two order-walking loops (for the termination /
resource-bound claim).  These mirror `allocLoop` and `freeLoop` step by step
and count how many times the corresponding C loop body (including the final
guard evaluation that enters the body) executes. -/

lemma allocLoopSteps_le_fuel :
    ∀ fuel i bor s, allocLoopSteps bor fuel i s ≤ fuel := by
  intro fuel
  induction fuel with
  | zero => intro i bor s; simp [allocLoopSteps]
  | succ fuel ih =>
    intro i bor s
    unfold allocLoopSteps
    split
    · omega
    · split
      · have := ih (i + 1) bor s
        omega
      · omega

lemma allocLoopSteps_low {fuel i bor : Nat} (s : BuddyState)
    (hf : 1 ≤ fuel) (hi : i < MIN_ORDER) : allocLoopSteps bor fuel i s = 1 := by
  obtain ⟨fuel', rfl⟩ : ∃ fuel', fuel = fuel' + 1 := ⟨fuel - 1, by omega⟩
  unfold allocLoopSteps
  rw [if_pos hi]

lemma freeLoopSteps_le_fuel :
    ∀ fuel fp i (ba : Nat → Nat) (fa : Nat → List Nat), freeLoopSteps ba fuel fp i fa ≤ fuel := by
  intro fuel
  induction fuel with
  | zero => intro fp i ba fa; simp [freeLoopSteps]
  | succ fuel ih =>
    intro fp i ba fa
    unfold freeLoopSteps
    simp only
    split
    · have := ih (if ADDR_TO_PAGE (BUDDY_ADDR (ba fp) i) < fp then ADDR_TO_PAGE (BUDDY_ADDR (ba fp) i) else fp)
        (i + 1) ba (list_del i (ADDR_TO_PAGE (BUDDY_ADDR (ba fp) i)) fa)
      omega
    · omega

/-- C9: every operation of the model is a total function (`buddy_init` and
`buddy_dump` are loop-free up to the fixed order range), and the two
order-walking loops are bounded: the scan loop of `buddy_alloc` and the merge
loop of `buddy_free` (the latter under the operation's precondition that the
freed address carries a valid recorded order, i.e. at least `MIN_ORDER`)
each execute at most `MAX_ORDER - MIN_ORDER + 1` iterations, and `buddy_dump`
visits exactly `MAX_ORDER - MIN_ORDER + 1` orders. -/
theorem ops_bounded_iterations (s : BuddyState) (size addr : Nat) :
    buddy_allocSteps size s ≤ MAX_ORDER - MIN_ORDER + 1 ∧
    ((MIN_ORDER : Int) ≤ s.blockOrder (ADDR_TO_PAGE addr) →
      buddy_freeSteps addr s ≤ MAX_ORDER - MIN_ORDER + 1) ∧
    (buddy_dump s).length = MAX_ORDER - MIN_ORDER + 1 := by
  have e1 : MIN_ORDER = 12 := rfl
  have e2 : MAX_ORDER = 20 := rfl
  refine ⟨?_, ?_, by simp [buddy_dump]⟩
  · unfold buddy_allocSteps
    split
    · omega
    · by_cases hlow : ceilLog2 size < MIN_ORDER
      · rw [allocLoopSteps_low s (by omega) hlow]
        omega
      · have := allocLoopSteps_le_fuel (MAX_ORDER + 1 - ceilLog2 size) (ceilLog2 size) (ceilLog2 size) s
        omega
  · intro hbo
    unfold buddy_freeSteps
    rw [if_neg (by omega)]
    have hge : MIN_ORDER ≤ (s.blockOrder (ADDR_TO_PAGE addr)).toNat := by omega
    have := freeLoopSteps_le_fuel (MAX_ORDER - (s.blockOrder (ADDR_TO_PAGE addr)).toNat)
      (ADDR_TO_PAGE addr) (s.blockOrder (ADDR_TO_PAGE addr)).toNat s.blockAddress s.free_area
    omega

/-- Witness for `ops_bounded_iterations`: the address 0 allocated in `st1`
carries order `MIN_ORDER`, and freeing it runs a bounded merge loop. -/
theorem ops_bounded_iterations_witness :
    ((MIN_ORDER : Int) ≤ st1.blockOrder (ADDR_TO_PAGE 0)) ∧
    buddy_freeSteps 0 st1 ≤ MAX_ORDER - MIN_ORDER + 1 :=
  ⟨by decide, (ops_bounded_iterations st1 PAGE_SIZE 0).2.1 (by decide)⟩

/-! Generic facts about `buddy_free` and its merge loop, and the buddy-address
arithmetic at page granularity. -/

lemma xor_mul_pow (x y k : Nat) : x * 2 ^ k ^^^ y * 2 ^ k = (x ^^^ y) * 2 ^ k := by
  apply Nat.eq_of_testBit_eq
  intro j
  rw [Nat.testBit_xor, Nat.mul_comm x, Nat.mul_comm y, Nat.mul_comm (x ^^^ y),
    Nat.testBit_mul_pow_two, Nat.testBit_mul_pow_two, Nat.testBit_mul_pow_two, Nat.testBit_xor]
  by_cases h : j ≥ k <;> simp [h]

lemma xor_mul_page (x y : Nat) : x * PAGE_SIZE ^^^ y * PAGE_SIZE = (x ^^^ y) * PAGE_SIZE :=
  xor_mul_pow x y MIN_ORDER

lemma xor_pow_ne (x k : Nat) : x ^^^ 2 ^ k ≠ x := by
  intro h
  have h2 : x ^^^ (x ^^^ 2 ^ k) = x ^^^ x := by rw [h]
  rw [Nat.xor_cancel_left, Nat.xor_self] at h2
  exact absurd h2 (Nat.pos_iff_ne_zero.mp (Nat.pos_pow_of_pos k (by norm_num)))

lemma min_mul_right (x y c : Nat) : min (x * c) (y * c) = min x y * c := by
  rcases le_total x y with h | h
  · rw [min_eq_left h, min_eq_left (Nat.mul_le_mul_right c h)]
  · rw [min_eq_right h, min_eq_right (Nat.mul_le_mul_right c h)]

/-- One non-merging evaluation of the `buddy_free` loop guard. -/
lemma freeLoop_stop (ba : Nat → Nat) (fuel fp i : Nat) (fa : Nat → List Nat)
    (h : ADDR_TO_PAGE (BUDDY_ADDR (ba fp) i) ∉ fa i) :
    freeLoop ba (fuel + 1) fp i fa = (fp, i, fa) := by
  conv_lhs => rw [freeLoop]
  simp only [if_neg h]

/-- One merging iteration of the `buddy_free` loop. -/
lemma freeLoop_step (ba : Nat → Nat) (fuel fp i : Nat) (fa : Nat → List Nat)
    (h : ADDR_TO_PAGE (BUDDY_ADDR (ba fp) i) ∈ fa i) :
    freeLoop ba (fuel + 1) fp i fa =
      freeLoop ba fuel
        (if ADDR_TO_PAGE (BUDDY_ADDR (ba fp) i) < fp then ADDR_TO_PAGE (BUDDY_ADDR (ba fp) i) else fp)
        (i + 1) (list_del i (ADDR_TO_PAGE (BUDDY_ADDR (ba fp) i)) fa) := by
  conv_lhs => rw [freeLoop]
  simp only [if_pos h]

/-- `buddy_free` reads exactly the `blockOrder` field of the head page of the
freed block: if that field holds `i ≥ 0`, the result is the run of the merge
loop started at order `i`, followed by the final order assignment and
insertion. -/
lemma buddy_free_run (addr : Nat) (s : BuddyState) (i : Nat)
    (hbo : s.blockOrder (ADDR_TO_PAGE addr) = (i : Int)) :
    buddy_free addr s = .ok
      { s with
        blockOrder := setOrder
          (freeLoop s.blockAddress (MAX_ORDER - i) (ADDR_TO_PAGE addr) i s.free_area).1
          ((freeLoop s.blockAddress (MAX_ORDER - i) (ADDR_TO_PAGE addr) i s.free_area).2.1 : Int)
          s.blockOrder
        free_area := list_add
          (freeLoop s.blockAddress (MAX_ORDER - i) (ADDR_TO_PAGE addr) i s.free_area).2.1
          (freeLoop s.blockAddress (MAX_ORDER - i) (ADDR_TO_PAGE addr) i s.free_area).1
          (freeLoop s.blockAddress (MAX_ORDER - i) (ADDR_TO_PAGE addr) i s.free_area).2.2 } := by
  have hneg : ¬ ((i : Int) < 0) := by omega
  simp only [buddy_free, hbo, hneg, if_false, Int.toNat_ofNat]

/-- C6 (amended): if two sibling blocks of equal order `i` (addresses `a` and
`BUDDY_ADDR a i`) are both allocated (their head pages record order `i` and
neither is linked in the order-`i` free list), then freeing both of them — in
either order — yields one and the same state `t`; in `t` the two siblings are
merged (the second free removes the first sibling from the order-`i` list and
continues with the combined block at order `i + 1`), and, provided the merge
does not cascade further (the parent's buddy is not free at order `i + 1`),
the result is exactly the original state with the merged block (base = the
lower of the two addresses) inserted as a single free block at the next
higher order `i + 1`.  (The original claim asserts the merged block always
rests at order `i + 1`; the cascade case refutes that, see
`free_siblings_cascade_cex`.) -/
theorem free_siblings_merge_comm
    (s : BuddyState) (a i : Nat)
    (hba : ∀ p, s.blockAddress p = PAGE_TO_ADDR p)
    (hi : MIN_ORDER ≤ i) (hi20 : i < MAX_ORDER)
    (hal : 2 ^ i ∣ a)
    (hboa : s.blockOrder (ADDR_TO_PAGE a) = (i : Int))
    (hbob : s.blockOrder (ADDR_TO_PAGE (BUDDY_ADDR a i)) = (i : Int))
    (hnfa : ADDR_TO_PAGE a ∉ s.free_area i)
    (hnfb : ADDR_TO_PAGE (BUDDY_ADDR a i) ∉ s.free_area i) :
    ∃ t : BuddyState,
      (buddy_free a s).bind (buddy_free (BUDDY_ADDR a i)) = .ok t ∧
      (buddy_free (BUDDY_ADDR a i) s).bind (buddy_free a) = .ok t ∧
      ((i + 1 < MAX_ORDER →
          ADDR_TO_PAGE (BUDDY_ADDR (min a (BUDDY_ADDR a i)) (i + 1)) ∉ s.free_area (i + 1)) →
        t.free_area (i + 1) = ADDR_TO_PAGE (min a (BUDDY_ADDR a i)) :: s.free_area (i + 1) ∧
        (∀ o, o ≠ i + 1 → t.free_area o = s.free_area o) ∧
        t.blockOrder (ADDR_TO_PAGE (min a (BUDDY_ADDR a i))) = (i : Int) + 1) := by
  have e1 : MIN_ORDER = 12 := rfl
  have e2 : MAX_ORDER = 20 := rfl
  have hps : (0 : Nat) < PAGE_SIZE := by decide
  have h4096 : PAGE_SIZE ∣ a := dvd_trans (pow_dvd_pow 2 hi) hal
  have hpa4 : ADDR_TO_PAGE a * PAGE_SIZE = a := Nat.div_mul_cancel h4096
  have hpow : (2 : Nat) ^ i = 2 ^ (i - MIN_ORDER) * PAGE_SIZE := by
    show (2 : Nat) ^ i = 2 ^ (i - MIN_ORDER) * 2 ^ MIN_ORDER
    rw [← pow_add]
    congr 1
    omega
  have hbeq : BUDDY_ADDR a i = (ADDR_TO_PAGE a ^^^ 2 ^ (i - MIN_ORDER)) * PAGE_SIZE := by
    rw [BUDDY_ADDR, hpow]
    conv_lhs => rw [← hpa4]
    rw [xor_mul_page]
  have hpb : ADDR_TO_PAGE (BUDDY_ADDR a i) = ADDR_TO_PAGE a ^^^ 2 ^ (i - MIN_ORDER) := by
    rw [hbeq]
    exact Nat.mul_div_cancel _ hps
  have hne : ADDR_TO_PAGE (BUDDY_ADDR a i) ≠ ADDR_TO_PAGE a := by
    rw [hpb]
    exact xor_pow_ne _ _
  have hpb4 : ADDR_TO_PAGE (BUDDY_ADDR a i) * PAGE_SIZE = BUDDY_ADDR a i := by
    rw [hpb]
    exact hbeq.symm
  have hbb : BUDDY_ADDR (BUDDY_ADDR a i) i = a := Nat.xor_cancel_right _ _
  have hbapa : s.blockAddress (ADDR_TO_PAGE a) = a := by
    rw [hba]
    exact hpa4
  have hbapb : s.blockAddress (ADDR_TO_PAGE (BUDDY_ADDR a i)) = BUDDY_ADDR a i := by
    rw [hba]
    exact hpb4
  have hbudA : ADDR_TO_PAGE (BUDDY_ADDR (s.blockAddress (ADDR_TO_PAGE a)) i) =
      ADDR_TO_PAGE (BUDDY_ADDR a i) := by rw [hbapa]
  have hbudB : ADDR_TO_PAGE (BUDDY_ADDR (s.blockAddress (ADDR_TO_PAGE (BUDDY_ADDR a i))) i) =
      ADDR_TO_PAGE a := by rw [hbapb, hbb]
  have hSetA : setOrder (ADDR_TO_PAGE a) ((i : Nat) : Int) s.blockOrder = s.blockOrder := by
    funext q
    simp only [setOrder]
    split
    case isTrue hq => rw [hq, hboa]
    case isFalse hq => rfl
  have hSetB : setOrder (ADDR_TO_PAGE (BUDDY_ADDR a i)) ((i : Nat) : Int) s.blockOrder =
      s.blockOrder := by
    funext q
    simp only [setOrder]
    split
    case isTrue hq => rw [hq, hbob]
    case isFalse hq => rfl
  have hdelA : list_del i (ADDR_TO_PAGE a) (list_add i (ADDR_TO_PAGE a) s.free_area) =
      s.free_area := by
    funext o
    simp only [list_del, list_add]
    split
    case isTrue ho => rw [List.erase_cons_head]
    case isFalse ho => rfl
  have hdelB : list_del i (ADDR_TO_PAGE (BUDDY_ADDR a i))
      (list_add i (ADDR_TO_PAGE (BUDDY_ADDR a i)) s.free_area) = s.free_area := by
    funext o
    simp only [list_del, list_add]
    split
    case isTrue ho => rw [List.erase_cons_head]
    case isFalse ho => rfl
  have hifA : (if ADDR_TO_PAGE a < ADDR_TO_PAGE (BUDDY_ADDR a i) then ADDR_TO_PAGE a
      else ADDR_TO_PAGE (BUDDY_ADDR a i)) =
      min (ADDR_TO_PAGE a) (ADDR_TO_PAGE (BUDDY_ADDR a i)) := by
    rcases lt_or_gt_of_ne hne with h | h
    · rw [if_neg (by omega), min_eq_right (le_of_lt h)]
    · rw [if_pos h, min_eq_left (le_of_lt h)]
  have hifB : (if ADDR_TO_PAGE (BUDDY_ADDR a i) < ADDR_TO_PAGE a then ADDR_TO_PAGE (BUDDY_ADDR a i)
      else ADDR_TO_PAGE a) =
      min (ADDR_TO_PAGE a) (ADDR_TO_PAGE (BUDDY_ADDR a i)) := by
    rcases lt_or_gt_of_ne hne with h | h
    · rw [if_pos h, min_eq_right (le_of_lt h)]
    · rw [if_neg (by omega), min_eq_left (le_of_lt h)]
  have hbam : s.blockAddress (min (ADDR_TO_PAGE a) (ADDR_TO_PAGE (BUDDY_ADDR a i))) =
      min a (BUDDY_ADDR a i) := by
    rw [hba]
    show min (ADDR_TO_PAGE a) (ADDR_TO_PAGE (BUDDY_ADDR a i)) * PAGE_SIZE = min a (BUDDY_ADDR a i)
    rw [← min_mul_right, hpa4, hpb4]
  have hminpage : ADDR_TO_PAGE (min a (BUDDY_ADDR a i)) =
      min (ADDR_TO_PAGE a) (ADDR_TO_PAGE (BUDDY_ADDR a i)) := by
    have h1 : min a (BUDDY_ADDR a i) =
        min (ADDR_TO_PAGE a) (ADDR_TO_PAGE (BUDDY_ADDR a i)) * PAGE_SIZE := by
      rw [← min_mul_right, hpa4, hpb4]
    rw [h1]
    exact Nat.mul_div_cancel _ hps
  obtain ⟨fuel, hfuel⟩ : ∃ f, MAX_ORDER - i = f + 1 := ⟨MAX_ORDER - i - 1, by omega⟩
  set sA : BuddyState :=
    { s with blockOrder := setOrder (ADDR_TO_PAGE a) ((i : Nat) : Int) s.blockOrder
             free_area := list_add i (ADDR_TO_PAGE a) s.free_area } with hsA
  set sB : BuddyState :=
    { s with blockOrder := setOrder (ADDR_TO_PAGE (BUDDY_ADDR a i)) ((i : Nat) : Int) s.blockOrder
             free_area := list_add i (ADDR_TO_PAGE (BUDDY_ADDR a i)) s.free_area } with hsB
  set T0 : Nat × Nat × (Nat → List Nat) :=
    freeLoop s.blockAddress fuel (min (ADDR_TO_PAGE a) (ADDR_TO_PAGE (BUDDY_ADDR a i)))
      (i + 1) s.free_area with hT0def
  have hrunA : buddy_free a s = .ok sA := by
    rw [buddy_free_run a s i hboa, hfuel,
      freeLoop_stop _ _ _ _ _ (by rw [hbudA]; exact hnfb)]
  have hrunB : buddy_free (BUDDY_ADDR a i) s = .ok sB := by
    rw [buddy_free_run (BUDDY_ADDR a i) s i hbob, hfuel,
      freeLoop_stop _ _ _ _ _ (by rw [hbudB]; exact hnfa)]
  have hboAB : sA.blockOrder (ADDR_TO_PAGE (BUDDY_ADDR a i)) = (i : Int) := by
    show setOrder (ADDR_TO_PAGE a) ((i : Nat) : Int) s.blockOrder
      (ADDR_TO_PAGE (BUDDY_ADDR a i)) = (i : Int)
    simp only [setOrder]
    rw [if_neg hne]
    exact hbob
  have hboBA : sB.blockOrder (ADDR_TO_PAGE a) = (i : Int) := by
    show setOrder (ADDR_TO_PAGE (BUDDY_ADDR a i)) ((i : Nat) : Int) s.blockOrder
      (ADDR_TO_PAGE a) = (i : Int)
    simp only [setOrder]
    rw [if_neg (fun hq => hne hq.symm)]
    exact hboa
  have hRA : freeLoop sA.blockAddress (MAX_ORDER - i) (ADDR_TO_PAGE (BUDDY_ADDR a i)) i
      sA.free_area = T0 := by
    show freeLoop s.blockAddress (MAX_ORDER - i) (ADDR_TO_PAGE (BUDDY_ADDR a i)) i
      (list_add i (ADDR_TO_PAGE a) s.free_area) = T0
    rw [hfuel, freeLoop_step _ _ _ _ _
      (by rw [hbudB]; simp [list_add])]
    rw [hbudB, hifA, hdelA]
  have hRB : freeLoop sB.blockAddress (MAX_ORDER - i) (ADDR_TO_PAGE a) i
      sB.free_area = T0 := by
    show freeLoop s.blockAddress (MAX_ORDER - i) (ADDR_TO_PAGE a) i
      (list_add i (ADDR_TO_PAGE (BUDDY_ADDR a i)) s.free_area) = T0
    rw [hfuel, freeLoop_step _ _ _ _ _
      (by rw [hbudA]; simp [list_add])]
    rw [hbudA, hifB, hdelB]
  have hrunAB : buddy_free (BUDDY_ADDR a i) sA = .ok
      { s with blockOrder := setOrder T0.1 (T0.2.1 : Int) s.blockOrder
               free_area := list_add T0.2.1 T0.1 T0.2.2 } := by
    rw [buddy_free_run (BUDDY_ADDR a i) sA i hboAB, hRA,
      show sA.blockOrder = s.blockOrder from hSetA]
  have hrunBA : buddy_free a sB = .ok
      { s with blockOrder := setOrder T0.1 (T0.2.1 : Int) s.blockOrder
               free_area := list_add T0.2.1 T0.1 T0.2.2 } := by
    rw [buddy_free_run a sB i hboBA, hRB,
      show sB.blockOrder = s.blockOrder from hSetB]
  refine ⟨{ s with blockOrder := setOrder T0.1 (T0.2.1 : Int) s.blockOrder
                   free_area := list_add T0.2.1 T0.1 T0.2.2 }, ?_, ?_, ?_⟩
  · rw [hrunA]
    exact hrunAB
  · rw [hrunB]
    exact hrunBA
  · intro hnc
    have hT0v : T0 = (min (ADDR_TO_PAGE a) (ADDR_TO_PAGE (BUDDY_ADDR a i)), i + 1,
        s.free_area) := by
      rw [hT0def]
      by_cases hc : i + 1 < MAX_ORDER
      · obtain ⟨f2, hf2⟩ : ∃ f2, fuel = f2 + 1 := ⟨fuel - 1, by omega⟩
        rw [hf2, freeLoop_stop _ _ _ _ _ (by rw [hbam]; exact hnc hc)]
      · have hf0 : fuel = 0 := by omega
        rw [hf0]
        rfl
    refine ⟨?_, ?_, ?_⟩
    · show list_add T0.2.1 T0.1 T0.2.2 (i + 1) =
        ADDR_TO_PAGE (min a (BUDDY_ADDR a i)) :: s.free_area (i + 1)
      rw [hT0v, hminpage]
      simp [list_add]
    · intro o ho
      show list_add T0.2.1 T0.1 T0.2.2 o = s.free_area o
      rw [hT0v]
      simp only [list_add]
      rw [if_neg ho]
    · show setOrder T0.1 (T0.2.1 : Int) s.blockOrder (ADDR_TO_PAGE (min a (BUDDY_ADDR a i))) =
        (i : Int) + 1
      rw [hT0v, hminpage]
      simp only [setOrder, if_pos rfl]
      push_cast
      ring

/-- Witness for `free_siblings_merge_comm`: the two sibling minimum-size
blocks at addresses `0` and `4096` allocated by the first two allocations
after init. -/
theorem free_siblings_merge_comm_witness :
    ∃ t : BuddyState,
      (buddy_free 0 st2).bind (buddy_free (BUDDY_ADDR 0 MIN_ORDER)) = .ok t ∧
      (buddy_free (BUDDY_ADDR 0 MIN_ORDER) st2).bind (buddy_free 0) = .ok t ∧
      ((MIN_ORDER + 1 < MAX_ORDER →
          ADDR_TO_PAGE (BUDDY_ADDR (min 0 (BUDDY_ADDR 0 MIN_ORDER)) (MIN_ORDER + 1)) ∉
            st2.free_area (MIN_ORDER + 1)) →
        t.free_area (MIN_ORDER + 1) =
          ADDR_TO_PAGE (min 0 (BUDDY_ADDR 0 MIN_ORDER)) :: st2.free_area (MIN_ORDER + 1) ∧
        (∀ o, o ≠ MIN_ORDER + 1 → t.free_area o = st2.free_area o) ∧
        t.blockOrder (ADDR_TO_PAGE (min 0 (BUDDY_ADDR 0 MIN_ORDER))) = (MIN_ORDER : Int) + 1) :=
  free_siblings_merge_comm st2 0 MIN_ORDER (fun p => rfl) (by decide) (by decide)
    (by decide) (by decide) (by decide) (by decide) (by decide)

/-! C7: the Deallocation Engine refines the spec's description.  We write a
second definition that follows the wording of the design document (working on
block base addresses, scanning for "a descriptor matching that buddy address",
taking "the lower of the two addresses" as merged base) and prove that
`buddy_free` computes exactly it. -/

lemma pow_split {i : Nat} (hi : MIN_ORDER ≤ i) :
    (2 : Nat) ^ i = 2 ^ (i - MIN_ORDER) * PAGE_SIZE := by
  show (2 : Nat) ^ i = 2 ^ (i - MIN_ORDER) * 2 ^ MIN_ORDER
  rw [← pow_add]
  congr 1
  omega

lemma addr_roundtrip {x : Nat} (h : PAGE_SIZE ∣ x) : PAGE_TO_ADDR (ADDR_TO_PAGE x) = x :=
  Nat.div_mul_cancel h

lemma page_roundtrip (p : Nat) : ADDR_TO_PAGE (PAGE_TO_ADDR p) = p :=
  Nat.mul_div_cancel _ (by decide)

lemma buddy_split {base i : Nat} (h : PAGE_SIZE ∣ base) (hi : MIN_ORDER ≤ i) :
    BUDDY_ADDR base i = (ADDR_TO_PAGE base ^^^ 2 ^ (i - MIN_ORDER)) * PAGE_SIZE := by
  rw [BUDDY_ADDR, pow_split hi]
  conv_lhs => rw [← Nat.div_mul_cancel h]
  rw [xor_mul_page]
  rfl

lemma buddy_aligned {base i : Nat} (h : PAGE_SIZE ∣ base) (hi : MIN_ORDER ≤ i) :
    PAGE_SIZE ∣ BUDDY_ADDR base i := by
  rw [buddy_split h hi]
  exact dvd_mul_left _ _

lemma if_lt_min (x y : Nat) : (if x < y then x else y) = min x y := by
  split
  case isTrue h => exact (min_eq_left h.le).symm
  case isFalse h => exact (min_eq_right (by omega)).symm

lemma page_min (x y : Nat) :
    ADDR_TO_PAGE (min x y) = min (ADDR_TO_PAGE x) (ADDR_TO_PAGE y) := by
  rcases le_total x y with h | h
  · rw [min_eq_left h]
    exact (min_eq_left (Nat.div_le_div_right h)).symm
  · rw [min_eq_right h]
    exact (min_eq_right (Nat.div_le_div_right h)).symm

lemma freeLoop_spec_agree (ba : Nat → Nat) (hba : ∀ p, ba p = PAGE_TO_ADDR p) :
    ∀ fuel base i (fa : Nat → List Nat), PAGE_SIZE ∣ base → MIN_ORDER ≤ i →
      PAGE_SIZE ∣ (buddyFreeSpecLoop fuel base i fa).1 ∧
      freeLoop ba fuel (ADDR_TO_PAGE base) i fa =
        (ADDR_TO_PAGE (buddyFreeSpecLoop fuel base i fa).1,
         (buddyFreeSpecLoop fuel base i fa).2.1,
         (buddyFreeSpecLoop fuel base i fa).2.2) := by
  intro fuel
  induction fuel with
  | zero =>
    intro base i fa hdvd hi
    exact ⟨hdvd, rfl⟩
  | succ fuel ih =>
    intro base i fa hdvd hi
    have hbdvd : PAGE_SIZE ∣ BUDDY_ADDR base i := buddy_aligned hdvd hi
    have hnorm : ADDR_TO_PAGE (BUDDY_ADDR (ba (ADDR_TO_PAGE base)) i) =
        ADDR_TO_PAGE (BUDDY_ADDR base i) := by
      rw [hba, addr_roundtrip hdvd]
    cases hfind : (fa i).find? (fun p => PAGE_TO_ADDR p == BUDDY_ADDR base i) with
    | some p =>
      have hpeq : PAGE_TO_ADDR p = BUDDY_ADDR base i := by
        have := List.find?_some hfind
        exact beq_iff_eq.mp this
      have hpmem : p ∈ fa i := List.mem_of_find?_eq_some hfind
      have hpe : p = ADDR_TO_PAGE (BUDDY_ADDR base i) := by
        rw [← hpeq, page_roundtrip]
      have hmem : ADDR_TO_PAGE (BUDDY_ADDR (ba (ADDR_TO_PAGE base)) i) ∈ fa i := by
        rw [hnorm, ← hpe]
        exact hpmem
      have hdvd2 : PAGE_SIZE ∣ min base (BUDDY_ADDR base i) := by
        rcases le_total base (BUDDY_ADDR base i) with h | h
        · rw [min_eq_left h]; exact hdvd
        · rw [min_eq_right h]; exact hbdvd
      have hfp : (if ADDR_TO_PAGE (BUDDY_ADDR base i) < ADDR_TO_PAGE base
          then ADDR_TO_PAGE (BUDDY_ADDR base i) else ADDR_TO_PAGE base) =
          ADDR_TO_PAGE (min base (BUDDY_ADDR base i)) := by
        rw [if_lt_min, page_min, min_comm]
      have IH := ih (min base (BUDDY_ADDR base i)) (i + 1) (list_del i p fa) hdvd2 (by omega)
      simp only [buddyFreeSpecLoop, hfind]
      refine ⟨IH.1, ?_⟩
      rw [freeLoop_step _ _ _ _ _ hmem, hnorm, hfp, show ADDR_TO_PAGE (BUDDY_ADDR base i) = p
        from hpe.symm]
      exact IH.2
    | none =>
      have hnot : ADDR_TO_PAGE (BUDDY_ADDR (ba (ADDR_TO_PAGE base)) i) ∉ fa i := by
        rw [hnorm]
        intro hmem
        have := List.find?_eq_none.mp hfind _ hmem
        apply this
        exact beq_iff_eq.mpr (addr_roundtrip hbdvd)
      simp only [buddyFreeSpecLoop, hfind]
      exact ⟨hdvd, by rw [freeLoop_stop _ _ _ _ _ hnot]⟩

/-- C7: `buddy_free` computes exactly the Deallocation Engine of the design
document: given a block allocated at order `i0` (its head page records an
order of at least `MIN_ORDER`), it iterates from `i = i0`, at each order
computing the buddy address by XOR with `2^i` and scanning only the free list
at order `i` for a descriptor with that address; if found it removes the
buddy, takes the lower of the two addresses as the merged base and increments
`i`, otherwise it stops; finally it sets the resulting block's order to the
final `i` and performs exactly one insertion, into the free list at order
`i`. -/
theorem free_refines_spec (addr : Nat) (s : BuddyState)
    (hba : ∀ p, s.blockAddress p = PAGE_TO_ADDR p)
    (hal : PAGE_SIZE ∣ addr)
    (hbo : (MIN_ORDER : Int) ≤ s.blockOrder (ADDR_TO_PAGE addr)) :
    buddy_free addr s = .ok (buddyFreeSpec addr s) := by
  have hbo' : s.blockOrder (ADDR_TO_PAGE addr) =
      ((s.blockOrder (ADDR_TO_PAGE addr)).toNat : Int) := by omega
  have hi12 : MIN_ORDER ≤ (s.blockOrder (ADDR_TO_PAGE addr)).toNat := by
    have e1 : MIN_ORDER = 12 := rfl
    omega
  rw [buddy_free_run addr s (s.blockOrder (ADDR_TO_PAGE addr)).toNat hbo']
  have h := freeLoop_spec_agree s.blockAddress hba
    (MAX_ORDER - (s.blockOrder (ADDR_TO_PAGE addr)).toNat) addr
    (s.blockOrder (ADDR_TO_PAGE addr)).toNat s.free_area hal hi12
  rw [buddyFreeSpec]
  rw [h.2]

/-- Witness for `free_refines_spec`: freeing the block at address 0 allocated
by the first minimum-size allocation. -/
theorem free_refines_spec_witness :
    (PAGE_SIZE ∣ 0) ∧ ((MIN_ORDER : Int) ≤ st1.blockOrder (ADDR_TO_PAGE 0)) ∧
    buddy_free 0 st1 = .ok (buddyFreeSpec 0 st1) :=
  ⟨by decide, by decide, free_refines_spec 0 st1 (fun p => rfl) (by decide) (by decide)⟩

/-! C8/C10: the global invariants.  We track, as ghost state, the list `A` of
live allocations (address and order as recorded at allocation time) and show
that every reachable state exactly partitions the region into the free blocks
(on the free lists) and the allocated blocks (in `A`).  Everything is counted
at page granularity: block `(p, o)` starts at page `p` and covers the pages
`p ≤ q < p + 2^(o - MIN_ORDER)`. -/

lemma covers_self (p o : Nat) : coversB (p, o) p = true := by
  simp only [coversB, Bool.and_eq_true, decide_eq_true_eq]
  exact ⟨le_rfl, Nat.lt_add_of_pos_right (Nat.two_pow_pos _)⟩

lemma coversB_iff {b : Nat × Nat} {q : Nat} :
    coversB b q = true ↔ b.1 ≤ q ∧ q < b.1 + 2 ^ (b.2 - MIN_ORDER) := by
  simp [coversB]

lemma list_add_same (o p : Nat) (fa : Nat → List Nat) : list_add o p fa o = p :: fa o := by
  simp [list_add]

lemma list_add_other {o' o : Nat} (hne : o' ≠ o) (p : Nat) (fa : Nat → List Nat) :
    list_add o p fa o' = fa o' := by
  simp [list_add, hne]

lemma list_del_same (o p : Nat) (fa : Nat → List Nat) : list_del o p fa o = (fa o).erase p := by
  simp [list_del]

lemma list_del_other {o' o : Nat} (hne : o' ≠ o) (p : Nat) (fa : Nat → List Nat) :
    list_del o p fa o' = fa o' := by
  simp [list_del, hne]

lemma freeCountUpTo_add (fa : Nat → List Nat) (q p o : Nat) (ho : MIN_ORDER ≤ o) :
    ∀ K, freeCountUpTo (list_add o p fa) q K =
      freeCountUpTo fa q K + if o < MIN_ORDER + K ∧ coversB (p, o) q then 1 else 0 := by
  intro K
  induction K with
  | zero =>
    have e1 : MIN_ORDER = 12 := rfl
    rw [if_neg (by omega)]
    rfl
  | succ K ihK =>
    unfold freeCountUpTo
    rw [ihK]
    by_cases he : MIN_ORDER + K = o
    · subst he
      rw [list_add_same, List.countP_cons]
      by_cases hcv : coversB (p, MIN_ORDER + K) q
      · rw [if_pos hcv, if_neg (by omega), if_pos ⟨by omega, hcv⟩]
        omega
      · rw [if_neg hcv, if_neg (by omega), if_neg (by exact fun h => hcv h.2)]
        omega
    · rw [list_add_other he]
      by_cases hc : o < MIN_ORDER + K ∧ coversB (p, o) q
      · rw [if_pos hc, if_pos ⟨by omega, hc.2⟩]
        omega
      · rw [if_neg hc, if_neg (by intro h; exact hc ⟨by omega, h.2⟩)]
        omega

lemma freeCount_add (fa : Nat → List Nat) (q p o : Nat) (ho : MIN_ORDER ≤ o)
    (ho2 : o ≤ MAX_ORDER) :
    freeCount (list_add o p fa) q =
      freeCount fa q + if coversB (p, o) q then 1 else 0 := by
  have e1 : MIN_ORDER = 12 := rfl
  have e2 : MAX_ORDER = 20 := rfl
  rw [freeCount, freeCount, freeCountUpTo_add fa q p o ho]
  by_cases hcv : coversB (p, o) q
  · rw [if_pos (show o < MIN_ORDER + (MAX_ORDER - MIN_ORDER + 1) ∧ coversB (p, o) q = true
      from ⟨by omega, hcv⟩), if_pos hcv]
  · rw [if_neg (show ¬(o < MIN_ORDER + (MAX_ORDER - MIN_ORDER + 1) ∧ coversB (p, o) q = true)
      from fun h => hcv h.2), if_neg hcv]

lemma countP_erase_mem {α : Type} [BEq α] [LawfulBEq α] {l : List α} {p : α} (hp : p ∈ l)
    (pred : α → Bool) :
    List.countP pred l = List.countP pred (l.erase p) + if pred p then 1 else 0 := by
  induction l with
  | nil => exact absurd hp (List.not_mem_nil p)
  | cons a l ih =>
    rw [List.erase_cons]
    by_cases hb : a == p
    · rw [if_pos hb, List.countP_cons]
      have ha : a = p := eq_of_beq hb
      rw [ha]
    · rw [if_neg hb, List.countP_cons, List.countP_cons]
      have hpl : p ∈ l := by
        rcases List.mem_cons.mp hp with h | h
        · exact absurd (beq_iff_eq.mpr h.symm) hb
        · exact h
      rw [ih hpl]
      omega

lemma freeCountUpTo_del (fa : Nat → List Nat) (q p o : Nat) (ho : MIN_ORDER ≤ o)
    (hp : p ∈ fa o) :
    ∀ K, freeCountUpTo (list_del o p fa) q K +
        (if o < MIN_ORDER + K ∧ coversB (p, o) q then 1 else 0) = freeCountUpTo fa q K := by
  intro K
  induction K with
  | zero =>
    have e1 : MIN_ORDER = 12 := rfl
    rw [if_neg (by omega)]
    rfl
  | succ K ihK =>
    unfold freeCountUpTo
    rw [← ihK]
    by_cases he : MIN_ORDER + K = o
    · subst he
      rw [list_del_same, countP_erase_mem hp]
      by_cases hcv : coversB (p, MIN_ORDER + K) q
      · rw [if_pos hcv,
          if_neg (show ¬(MIN_ORDER + K < MIN_ORDER + K ∧
            coversB (p, MIN_ORDER + K) q = true) from fun h => absurd h.1 (lt_irrefl _)),
          if_pos (show MIN_ORDER + K < MIN_ORDER + (K + 1) ∧
            coversB (p, MIN_ORDER + K) q = true from ⟨by omega, hcv⟩)]
        omega
      · rw [if_neg hcv,
          if_neg (show ¬(MIN_ORDER + K < MIN_ORDER + K ∧
            coversB (p, MIN_ORDER + K) q = true) from fun h => absurd h.1 (lt_irrefl _)),
          if_neg (show ¬(MIN_ORDER + K < MIN_ORDER + (K + 1) ∧
            coversB (p, MIN_ORDER + K) q = true) from fun h => hcv h.2)]
        omega
    · rw [list_del_other he]
      by_cases hc : o < MIN_ORDER + K ∧ coversB (p, o) q
      · rw [if_pos hc, if_pos ⟨by omega, hc.2⟩]
        omega
      · rw [if_neg hc, if_neg (by intro h; exact hc ⟨by omega, h.2⟩)]
        omega

lemma freeCount_del (fa : Nat → List Nat) (q p o : Nat) (ho : MIN_ORDER ≤ o)
    (ho2 : o ≤ MAX_ORDER) (hp : p ∈ fa o) :
    freeCount (list_del o p fa) q + (if coversB (p, o) q then 1 else 0) = freeCount fa q := by
  have e1 : MIN_ORDER = 12 := rfl
  have e2 : MAX_ORDER = 20 := rfl
  rw [freeCount, freeCount, ← freeCountUpTo_del fa q p o ho hp]
  by_cases hcv : coversB (p, o) q
  · rw [if_pos (show o < MIN_ORDER + (MAX_ORDER - MIN_ORDER + 1) ∧ coversB (p, o) q = true
      from ⟨by omega, hcv⟩), if_pos hcv]
  · rw [if_neg (show ¬(o < MIN_ORDER + (MAX_ORDER - MIN_ORDER + 1) ∧ coversB (p, o) q = true)
      from fun h => hcv h.2), if_neg hcv]

lemma freeCount_one (fa : Nat → List Nat) (q o : Nat) (ho : MIN_ORDER ≤ o)
    (ho2 : o ≤ MAX_ORDER) :
    ((fa o).countP fun p => coversB (p, o) q) ≤ freeCount fa q := by
  have e1 : MIN_ORDER = 12 := rfl
  have e2 : MAX_ORDER = 20 := rfl
  have key : ∀ K, o < MIN_ORDER + K →
      ((fa o).countP fun p => coversB (p, o) q) ≤ freeCountUpTo fa q K := by
    intro K
    induction K with
    | zero => omega
    | succ K ihK =>
      intro hK
      unfold freeCountUpTo
      by_cases he : MIN_ORDER + K = o
      · subst he
        omega
      · have := ihK (by omega)
        omega
  exact key _ (by omega)

lemma freeCount_two (fa : Nat → List Nat) (q o o' : Nat) (ho : MIN_ORDER ≤ o)
    (ho2 : o ≤ MAX_ORDER) (ho' : MIN_ORDER ≤ o') (ho2' : o' ≤ MAX_ORDER) (hne : o ≠ o') :
    ((fa o).countP fun p => coversB (p, o) q) +
      ((fa o').countP fun p => coversB (p, o') q) ≤ freeCount fa q := by
  have e1 : MIN_ORDER = 12 := rfl
  have e2 : MAX_ORDER = 20 := rfl
  have key : ∀ K, o < MIN_ORDER + K → o' < MIN_ORDER + K →
      ((fa o).countP fun p => coversB (p, o) q) +
        ((fa o').countP fun p => coversB (p, o') q) ≤ freeCountUpTo fa q K := by
    intro K
    induction K with
    | zero => omega
    | succ K ihK =>
      intro hK hK'
      unfold freeCountUpTo
      by_cases he : MIN_ORDER + K = o
      · have h1 : ((fa o').countP fun p => coversB (p, o') q) ≤ freeCountUpTo fa q K := by
          have : o' < MIN_ORDER + K := by omega
          clear ihK hK hK' he
          induction K with
          | zero => omega
          | succ K ihK2 =>
            unfold freeCountUpTo
            by_cases he2 : MIN_ORDER + K = o'
            · subst he2
              omega
            · have := ihK2 (by omega)
              omega
        subst he
        omega
      · by_cases he' : MIN_ORDER + K = o'
        · have h1 : ((fa o).countP fun p => coversB (p, o) q) ≤ freeCountUpTo fa q K := by
            have : o < MIN_ORDER + K := by omega
            clear ihK hK hK' he he'
            induction K with
            | zero => omega
            | succ K ihK2 =>
              unfold freeCountUpTo
              by_cases he2 : MIN_ORDER + K = o
              · subst he2
                omega
              · have := ihK2 (by omega)
                omega
          subst he'
          omega
        · have := ihK (by omega) (by omega)
          omega
  exact key _ (by omega) (by omega)

set_option maxRecDepth 4000 in
/-- Page-level buddy arithmetic, checked for all pages of the region and all
block orders: the buddy page is in range, keeps the block's alignment, is a
different page, and the two sibling page intervals tile the parent block
(which is aligned one order higher). -/
lemma buddy_page_facts :
    ∀ p, p < 256 → ∀ k, k < 8 → 2 ^ k ∣ p →
      p ^^^ 2 ^ k < 256 ∧ 2 ^ k ∣ (p ^^^ 2 ^ k) ∧ p ^^^ 2 ^ k ≠ p ∧
      2 ^ (k + 1) ∣ min p (p ^^^ 2 ^ k) ∧
      min p (p ^^^ 2 ^ k) + 2 ^ k = max p (p ^^^ 2 ^ k) ∧
      max p (p ^^^ 2 ^ k) + 2 ^ k = min p (p ^^^ 2 ^ k) + 2 ^ (k + 1) := by
  decide

set_option maxRecDepth 4000 in
/-- If a block is aligned one order higher, its buddy at the lower order is
the upper half. -/
lemma buddy_page_upper :
    ∀ p, p < 256 → ∀ k, k < 8 →
      (¬ 2 ^ (k + 1) ∣ p ∨ p ^^^ 2 ^ k = p + 2 ^ k) := by
  decide

/-- The buddy of a block at page `p` and order `j ≥ MIN_ORDER`, computed by
the code on addresses, is the page `p ^^^ 2^(j - MIN_ORDER)`. -/
lemma buddy_page_eq {p j : Nat} (hj : MIN_ORDER ≤ j) :
    ADDR_TO_PAGE (BUDDY_ADDR (PAGE_TO_ADDR p) j) = p ^^^ 2 ^ (j - MIN_ORDER) := by
  rw [buddy_split (show PAGE_SIZE ∣ PAGE_TO_ADDR p from dvd_mul_left _ _) hj, page_roundtrip]
  exact Nat.mul_div_cancel _ (by decide)

/-- Page-level alignment gives address-level alignment. -/
lemma page_dvd_addr {p o : Nat} (ho : MIN_ORDER ≤ o) (h : 2 ^ (o - MIN_ORDER) ∣ p) :
    2 ^ o ∣ PAGE_TO_ADDR p := by
  obtain ⟨c, rfl⟩ := h
  refine ⟨c, ?_⟩
  show 2 ^ (o - MIN_ORDER) * c * PAGE_SIZE = 2 ^ o * c
  rw [pow_split ho]
  ring

lemma page_lt_addr {p : Nat} (h : p < NPAGES) : PAGE_TO_ADDR p < 2 ^ MAX_ORDER := by
  have : PAGE_TO_ADDR p ≤ 255 * PAGE_SIZE := Nat.mul_le_mul_right _ (by
    show p ≤ 255
    have e : NPAGES = 256 := rfl
    omega)
  have e2 : 255 * PAGE_SIZE < 2 ^ MAX_ORDER := by decide
  omega

lemma allocCount_cons (a o : Nat) (A : List (Nat × Nat)) (q : Nat) :
    allocCount ((a, o) :: A) q =
      allocCount A q + if coversB (ADDR_TO_PAGE a, o) q then 1 else 0 := by
  unfold allocCount
  rw [List.countP_cons]

lemma allocCount_erase {A : List (Nat × Nat)} {a o : Nat} (h : (a, o) ∈ A) (q : Nat) :
    allocCount A q =
      allocCount (A.erase (a, o)) q + if coversB (ADDR_TO_PAGE a, o) q then 1 else 0 := by
  unfold allocCount
  exact countP_erase_mem h _

lemma allocCount_zero {A : List (Nat × Nat)} {q : Nat} (h : allocCount A q = 0) :
    ∀ ao ∈ A, ¬ coversB (ADDR_TO_PAGE ao.1, ao.2) q := by
  intro ao hao
  exact List.countP_eq_zero.mp h ao hao

lemma freeCount_empty (q : Nat) : freeCount (fun _ => ([] : List Nat)) q = 0 := by
  show freeCountUpTo (fun _ => ([] : List Nat)) q (MAX_ORDER - MIN_ORDER + 1) = 0
  have h : ∀ K, freeCountUpTo (fun _ => ([] : List Nat)) q K = 0 := by
    intro K
    induction K with
    | zero => rfl
    | succ K ih =>
      unfold freeCountUpTo
      rw [ih]
      rfl
  exact h _

lemma inv_init : BuddyInv buddy_init [] := by
  have e1 : MIN_ORDER = 12 := rfl
  have e2 : MAX_ORDER = 20 := rfl
  have eN : NPAGES = 256 := rfl
  refine ⟨fun p => rfl, ?_, ?_, ?_, ?_, ?_⟩
  · intro o ho
    show list_add MAX_ORDER 0 (fun _ => []) o = []
    rw [list_add_other (by omega)]
  · intro o ho
    show list_add MAX_ORDER 0 (fun _ => []) o = []
    rw [list_add_other (by omega)]
  · intro o p hp
    by_cases he : o = MAX_ORDER
    · subst he
      have e : buddy_init.free_area MAX_ORDER = [0] := rfl
      rw [e] at hp
      simp at hp
      subst hp
      exact ⟨by decide, dvd_zero _⟩
    · exfalso
      have e : buddy_init.free_area o = [] := by
        show list_add MAX_ORDER 0 (fun _ => []) o = []
        rw [list_add_other he]
      rw [e] at hp
      exact absurd hp (List.not_mem_nil p)
  · intro ao hao
    exact absurd hao (List.not_mem_nil ao)
  · intro q hq
    show freeCount buddy_init.free_area q + allocCount [] q = 1
    have h2 : allocCount [] q = 0 := rfl
    have h1 : freeCount buddy_init.free_area q = 1 := by
      show freeCount (list_add MAX_ORDER 0 fun _ => []) q = 1
      rw [freeCount_add _ q 0 MAX_ORDER (by decide) (by decide)]
      have hcov : coversB (0, MAX_ORDER) q = true := by
        rw [coversB_iff]
        refine ⟨Nat.zero_le q, ?_⟩
        show q < 0 + 2 ^ (MAX_ORDER - MIN_ORDER)
        have e : (0 : Nat) + 2 ^ (MAX_ORDER - MIN_ORDER) = 256 := by decide
        omega
      rw [if_pos hcov, freeCount_empty]
    omega

/-- Splitting/merging a block: the pages covered by a block of order `j + 1`
at page `p` are exactly those covered by the two order-`j` halves at `p` and
`p + 2^(j - MIN_ORDER)`, and the two halves are disjoint. -/
lemma cover_pair {p k j : Nat} (q : Nat) (hk : j - MIN_ORDER = k)
    (hj1 : j + 1 - MIN_ORDER = k + 1) :
    (if coversB (p, j + 1) q then 1 else 0) =
      (if coversB (p, j) q then 1 else 0) + (if coversB (p + 2 ^ k, j) q then 1 else 0) := by
  have hpow : (2 : Nat) ^ (k + 1) = 2 ^ k + 2 ^ k := by
    rw [pow_succ]
    ring
  have hb1 : (coversB (p, j + 1) q = true) ↔ (p ≤ q ∧ q < p + (2 ^ k + 2 ^ k)) := by
    rw [coversB_iff]
    show p ≤ q ∧ q < p + 2 ^ (j + 1 - MIN_ORDER) ↔ _
    rw [hj1, hpow]
  have hb2 : (coversB (p, j) q = true) ↔ (p ≤ q ∧ q < p + 2 ^ k) := by
    rw [coversB_iff]
    show p ≤ q ∧ q < p + 2 ^ (j - MIN_ORDER) ↔ _
    rw [hk]
  have hb3 : (coversB (p + 2 ^ k, j) q = true) ↔
      (p + 2 ^ k ≤ q ∧ q < p + 2 ^ k + 2 ^ k) := by
    rw [coversB_iff]
    show p + 2 ^ k ≤ q ∧ q < p + 2 ^ k + 2 ^ (j - MIN_ORDER) ↔ _
    rw [hk]
  rw [if_congr hb1 rfl rfl, if_congr hb2 rfl rfl, if_congr hb3 rfl rfl]
  split_ifs <;> omega

lemma splitLoop_zero (la bor : Nat) (s : BuddyState) : splitLoop la bor 0 s = s := rfl

lemma splitLoop_succ_eq (la bor j : Nat) (s : BuddyState) (h : j + 1 = bor) :
    splitLoop la bor (j + 1) s = s := by
  conv_lhs => rw [splitLoop]
  rw [if_pos h]

lemma splitLoop_succ_ne (la bor j : Nat) (s : BuddyState) (h : ¬ (j + 1 = bor)) :
    splitLoop la bor (j + 1) s =
      splitLoop la bor j
        { s with
          blockOrder := setOrder (ADDR_TO_PAGE (BUDDY_ADDR la j)) (j : Int) s.blockOrder
          free_area := list_add j (ADDR_TO_PAGE (BUDDY_ADDR la j)) s.free_area } := by
  conv_lhs => rw [splitLoop]
  rw [if_neg h]

/-- Invariant preservation through the split loop of `buddy_alloc`: starting
with an unlinked block `(p, j)` (the "hole" of the partition) whose head page
records `bor`, the loop inserts the upper halves at orders `j-1, ..., bor` and
leaves the hole `(p, bor)`. -/
lemma splitLoop_inv (A : List (Nat × Nat)) (bor : Nat) :
    ∀ j s p, MIN_ORDER ≤ bor → bor ≤ j → j ≤ MAX_ORDER →
      p < NPAGES → 2 ^ (j - MIN_ORDER) ∣ p →
      (∀ p', s.blockAddress p' = PAGE_TO_ADDR p') →
      (∀ o, o < MIN_ORDER → s.free_area o = []) →
      (∀ o, MAX_ORDER < o → s.free_area o = []) →
      (∀ o p', p' ∈ s.free_area o → p' < NPAGES ∧ 2 ^ (o - MIN_ORDER) ∣ p') →
      (∀ ao ∈ A, s.blockOrder (ADDR_TO_PAGE ao.1) = (ao.2 : Int)) →
      (∀ q, q < NPAGES →
        totalCount s.free_area A q + (if coversB (p, j) q then 1 else 0) = 1) →
      s.blockOrder p = (bor : Int) →
      ((∀ p', (splitLoop (PAGE_TO_ADDR p) bor j s).blockAddress p' = PAGE_TO_ADDR p') ∧
       (∀ o, o < MIN_ORDER → (splitLoop (PAGE_TO_ADDR p) bor j s).free_area o = []) ∧
       (∀ o, MAX_ORDER < o → (splitLoop (PAGE_TO_ADDR p) bor j s).free_area o = []) ∧
       (∀ o p', p' ∈ (splitLoop (PAGE_TO_ADDR p) bor j s).free_area o →
          p' < NPAGES ∧ 2 ^ (o - MIN_ORDER) ∣ p') ∧
       (∀ ao ∈ A, (splitLoop (PAGE_TO_ADDR p) bor j s).blockOrder (ADDR_TO_PAGE ao.1) =
          (ao.2 : Int)) ∧
       (∀ q, q < NPAGES → totalCount (splitLoop (PAGE_TO_ADDR p) bor j s).free_area A q +
          (if coversB (p, bor) q then 1 else 0) = 1) ∧
       (splitLoop (PAGE_TO_ADDR p) bor j s).blockOrder p = (bor : Int)) := by
  intro j
  induction j with
  | zero =>
    intro s p h12 hbj hj20 hp hal hba hlo hhi hmem hbo hcov hbop
    exfalso
    have e1 : MIN_ORDER = 12 := rfl
    omega
  | succ j ih =>
    intro s p h12 hbj hj20 hp hal hba hlo hhi hmem hbo hcov hbop
    have e1 : MIN_ORDER = 12 := rfl
    have e2 : MAX_ORDER = 20 := rfl
    have eN : NPAGES = 256 := rfl
    by_cases he : j + 1 = bor
    · rw [splitLoop_succ_eq _ _ _ _ he]
      subst he
      exact ⟨hba, hlo, hhi, hmem, hbo, hcov, hbop⟩
    · rw [splitLoop_succ_ne _ _ _ _ he]
      have hbj' : bor ≤ j := by omega
      have hj12 : MIN_ORDER ≤ j := by omega
      have hk8 : j - MIN_ORDER < 8 := by omega
      have hal' : 2 ^ (j - MIN_ORDER) ∣ p := by
        refine dvd_trans (pow_dvd_pow 2 ?_) hal
        omega
      have hal2 : 2 ^ ((j - MIN_ORDER) + 1) ∣ p := by
        rw [show (j - MIN_ORDER) + 1 = j + 1 - MIN_ORDER by omega]
        exact hal
      have hrw : ADDR_TO_PAGE (BUDDY_ADDR (PAGE_TO_ADDR p) j) = p ^^^ 2 ^ (j - MIN_ORDER) :=
        buddy_page_eq hj12
      obtain ⟨hblt, hbdvd, hbne, -, -, -⟩ :=
        buddy_page_facts p (by omega) (j - MIN_ORDER) hk8 hal'
      have hupper : p ^^^ 2 ^ (j - MIN_ORDER) = p + 2 ^ (j - MIN_ORDER) := by
        rcases buddy_page_upper p (by omega) (j - MIN_ORDER) hk8 with h | h
        · exact absurd hal2 h
        · exact h
      have hpow : (2 : Nat) ^ ((j - MIN_ORDER) + 1) = 2 ^ (j - MIN_ORDER) + 2 ^ (j - MIN_ORDER) := by
        rw [pow_succ]
        ring
      rw [hrw]
      refine ih _ p h12 hbj' (by omega) hp hal' hba ?_ ?_ ?_ ?_ ?_ ?_
      · intro o ho
        show list_add j _ s.free_area o = []
        rw [list_add_other (by omega)]
        exact hlo o ho
      · intro o ho
        show list_add j _ s.free_area o = []
        rw [list_add_other (by omega)]
        exact hhi o ho
      · intro o p' hp'
        have hp2 : p' ∈ list_add j (p ^^^ 2 ^ (j - MIN_ORDER)) s.free_area o := hp'
        by_cases ho : o = j
        · subst ho
          rw [list_add_same] at hp2
          rcases List.mem_cons.mp hp2 with h | h
          · subst h
            exact ⟨hblt, hbdvd⟩
          · exact hmem _ p' h
        · rw [list_add_other ho] at hp2
          exact hmem o p' hp2
      · intro ao hao
        show setOrder (p ^^^ 2 ^ (j - MIN_ORDER)) (j : Int) s.blockOrder
          (ADDR_TO_PAGE ao.1) = (ao.2 : Int)
        have hcovR : coversB (p, j + 1) (p ^^^ 2 ^ (j - MIN_ORDER)) = true := by
          rw [coversB_iff]
          show p ≤ _ ∧ _ < p + 2 ^ (j + 1 - MIN_ORDER)
          rw [hupper, show j + 1 - MIN_ORDER = (j - MIN_ORDER) + 1 by omega, hpow]
          omega
        have h0 := hcov (p ^^^ 2 ^ (j - MIN_ORDER)) (by omega)
        rw [if_pos hcovR] at h0
        have hz : allocCount A (p ^^^ 2 ^ (j - MIN_ORDER)) = 0 := by
          unfold totalCount at h0
          omega
        have hne2 : ADDR_TO_PAGE ao.1 ≠ p ^^^ 2 ^ (j - MIN_ORDER) := by
          intro hcontra
          apply allocCount_zero hz ao hao
          rw [hcontra]
          exact covers_self _ _
        simp only [setOrder]
        rw [if_neg hne2]
        exact hbo ao hao
      · intro q hq
        show totalCount (list_add j (p ^^^ 2 ^ (j - MIN_ORDER)) s.free_area) A q +
          (if coversB (p, j) q then 1 else 0) = 1
        unfold totalCount
        rw [freeCount_add _ q _ j hj12 (by omega)]
        have h0 := hcov q hq
        unfold totalCount at h0
        have hpair := cover_pair (p := p) (k := j - MIN_ORDER) q rfl (by omega)
        rw [hupper]
        omega
      · show setOrder (p ^^^ 2 ^ (j - MIN_ORDER)) (j : Int) s.blockOrder p = (bor : Int)
        simp only [setOrder]
        rw [if_neg (show p ≠ p ^^^ 2 ^ (j - MIN_ORDER) from fun h => hbne h.symm)]
        exact hbop

/-- Invariant preservation through the merge loop of `buddy_free`: starting
with an unlinked block `(fp, i)` (the hole of the partition), each merge
removes the free buddy at the current order and widens the hole one order;
the loop returns an unlinked block that still completes the partition. -/
lemma freeLoop_inv (ba : Nat → Nat) (hba : ∀ p', ba p' = PAGE_TO_ADDR p')
    (A : List (Nat × Nat)) :
    ∀ fuel i fp fa, MIN_ORDER ≤ i → i + fuel = MAX_ORDER →
      fp < NPAGES → 2 ^ (i - MIN_ORDER) ∣ fp →
      (∀ o, o < MIN_ORDER → fa o = []) →
      (∀ o, MAX_ORDER < o → fa o = []) →
      (∀ o p', p' ∈ fa o → p' < NPAGES ∧ 2 ^ (o - MIN_ORDER) ∣ p') →
      (∀ q, q < NPAGES → totalCount fa A q + (if coversB (fp, i) q then 1 else 0) = 1) →
      (MIN_ORDER ≤ (freeLoop ba fuel fp i fa).2.1 ∧
       (freeLoop ba fuel fp i fa).2.1 ≤ MAX_ORDER ∧
       (freeLoop ba fuel fp i fa).1 < NPAGES ∧
       2 ^ ((freeLoop ba fuel fp i fa).2.1 - MIN_ORDER) ∣ (freeLoop ba fuel fp i fa).1 ∧
       (∀ o, o < MIN_ORDER → (freeLoop ba fuel fp i fa).2.2 o = []) ∧
       (∀ o, MAX_ORDER < o → (freeLoop ba fuel fp i fa).2.2 o = []) ∧
       (∀ o p', p' ∈ (freeLoop ba fuel fp i fa).2.2 o →
          p' < NPAGES ∧ 2 ^ (o - MIN_ORDER) ∣ p') ∧
       (∀ q, q < NPAGES → totalCount (freeLoop ba fuel fp i fa).2.2 A q +
          (if coversB ((freeLoop ba fuel fp i fa).1, (freeLoop ba fuel fp i fa).2.1) q
           then 1 else 0) = 1)) := by
  intro fuel
  induction fuel with
  | zero =>
    intro i fp fa hi hif hfp hal hlo hhi hmem hcov
    have e2 : MAX_ORDER = 20 := rfl
    exact ⟨hi, (by omega : i ≤ MAX_ORDER), hfp, hal, hlo, hhi, hmem, hcov⟩
  | succ fuel ih =>
    intro i fp fa hi hif hfp hal hlo hhi hmem hcov
    have e1 : MIN_ORDER = 12 := rfl
    have e2 : MAX_ORDER = 20 := rfl
    have eN : NPAGES = 256 := rfl
    have hi19 : i ≤ 19 := by omega
    have hk8 : i - MIN_ORDER < 8 := by omega
    have hrw : ADDR_TO_PAGE (BUDDY_ADDR (ba fp) i) = fp ^^^ 2 ^ (i - MIN_ORDER) := by
      rw [hba fp]
      exact buddy_page_eq (by omega)
    by_cases hmemb : fp ^^^ 2 ^ (i - MIN_ORDER) ∈ fa i
    · obtain ⟨hblt, hbdvd, hbne, hmindvd, hminmax, hmaxmin⟩ :=
        buddy_page_facts fp (by omega) (i - MIN_ORDER) hk8 hal
      rw [freeLoop_step _ _ _ _ _ (by rw [hrw]; exact hmemb), hrw]
      have hif2 : (if fp ^^^ 2 ^ (i - MIN_ORDER) < fp then fp ^^^ 2 ^ (i - MIN_ORDER) else fp) =
          min fp (fp ^^^ 2 ^ (i - MIN_ORDER)) := by
        rw [if_lt_min]
        exact min_comm _ _
      rw [hif2]
      refine ih (i + 1) _ _ (by omega) (by omega) ?_ ?_ ?_ ?_ ?_ ?_
      · have := min_le_left fp (fp ^^^ 2 ^ (i - MIN_ORDER))
        omega
      · rw [show i + 1 - MIN_ORDER = (i - MIN_ORDER) + 1 by omega]
        exact hmindvd
      · intro o ho
        rw [list_del_other (by omega)]
        exact hlo o ho
      · intro o ho
        rw [list_del_other (by omega)]
        exact hhi o ho
      · intro o p' hp'
        by_cases ho : o = i
        · subst ho
          rw [list_del_same] at hp'
          exact hmem o p' (List.mem_of_mem_erase hp')
        · rw [list_del_other ho] at hp'
          exact hmem o p' hp'
      · intro q hq
        unfold totalCount
        have hdel := freeCount_del fa q (fp ^^^ 2 ^ (i - MIN_ORDER)) i (by omega) (by omega) hmemb
        have h0 := hcov q hq
        unfold totalCount at h0
        have hpair := cover_pair (p := min fp (fp ^^^ 2 ^ (i - MIN_ORDER)))
          (k := i - MIN_ORDER) q rfl (by omega)
        rw [hminmax] at hpair
        rcases le_total fp (fp ^^^ 2 ^ (i - MIN_ORDER)) with hfb | hfb
        · rw [min_eq_left hfb, max_eq_right hfb] at hpair
          rw [min_eq_left hfb]
          omega
        · rw [min_eq_right hfb, max_eq_left hfb] at hpair
          rw [min_eq_right hfb]
          omega
    · rw [freeLoop_stop _ _ _ _ _ (by rw [hrw]; exact hmemb)]
      exact ⟨hi, (by omega : i ≤ MAX_ORDER), hfp, hal, hlo, hhi, hmem, hcov⟩

lemma allocLoop_succ_nil {i : Nat} (bor fuel : Nat) (s : BuddyState)
    (hge : ¬ i < MIN_ORDER) (hfa : s.free_area i = []) :
    allocLoop bor (fuel + 1) i s = allocLoop bor fuel (i + 1) s := by
  conv_lhs => rw [allocLoop]
  rw [if_neg hge, hfa]

lemma allocLoop_succ_cons {i left : Nat} {rest : List Nat} {s : BuddyState}
    (bor fuel : Nat) (hge : ¬ i < MIN_ORDER)
    (hfa : s.free_area i = left :: rest) :
    allocLoop bor (fuel + 1) i s = .ok (some (s.blockAddress left),
      splitLoop (s.blockAddress left) bor i
        { s with
          blockOrder := setOrder left (bor : Int) s.blockOrder
          free_area := fun o => if o = i then rest else s.free_area o }) := by
  conv_lhs => rw [allocLoop]
  rw [if_neg hge, hfa]

lemma allocLoop_succ_low {i : Nat} (bor fuel : Nat) (s : BuddyState)
    (hlt : i < MIN_ORDER) :
    allocLoop bor (fuel + 1) i s = .error () := by
  conv_lhs => rw [allocLoop]
  rw [if_pos hlt]

/-- Invariant preservation for a successful allocation found by the scan
loop: the returned address becomes a live allocation of order `bor`. -/
lemma allocLoop_some_inv (A : List (Nat × Nat)) (bor : Nat) :
    ∀ fuel i s a t, BuddyInv s A → MIN_ORDER ≤ bor → bor ≤ i →
      i + fuel = MAX_ORDER + 1 →
      allocLoop bor fuel i s = .ok (some a, t) →
      BuddyInv t ((a, bor) :: A) := by
  intro fuel
  induction fuel with
  | zero =>
    intro i s a t hinv h12 hbi hif h
    exact absurd h (by simp [allocLoop])
  | succ fuel ih =>
    intro i s a t hinv h12 hbi hif h
    have e1 : MIN_ORDER = 12 := rfl
    have e2 : MAX_ORDER = 20 := rfl
    have eN : NPAGES = 256 := rfl
    have hge : ¬ i < MIN_ORDER := by omega
    cases hfa : s.free_area i with
    | nil =>
      rw [allocLoop_succ_nil bor fuel s hge hfa] at h
      exact ih (i + 1) s a t hinv h12 (by omega) (by omega) h
    | cons left rest =>
      rw [allocLoop_succ_cons bor fuel hge hfa] at h
      have hi20 : i ≤ MAX_ORDER := by omega
      have hlmem : left ∈ s.free_area i := by
        rw [hfa]
        exact List.mem_cons_self _ _
      obtain ⟨hllt, hlal⟩ := hinv.fa_mem i left hlmem
      -- the address `left` is covered by the free block (left, i), so no
      -- allocated block covers it
      have hfc1 : 1 ≤ (s.free_area i).countP fun p' => coversB (p', i) left :=
        List.countP_pos_iff.mpr ⟨left, hlmem, covers_self _ _⟩
      have hfc2 := freeCount_one s.free_area left i (by omega) hi20
      have hcovl := hinv.cover left (by omega)
      unfold totalCount at hcovl
      have hzl : allocCount A left = 0 := by omega
      -- the state after list_del of the scan head, with the hole (left, i)
      have hfa_eq : (fun o => if o = i then rest else s.free_area o) =
          list_del i left s.free_area := by
        funext o
        by_cases ho : o = i
        · subst ho
          rw [if_pos rfl, list_del_same, hfa, List.erase_cons_head]
        · rw [if_neg ho, list_del_other ho]
      rw [hfa_eq] at h
      rw [show s.blockAddress left = PAGE_TO_ADDR left from hinv.ba_eq left] at h
      have hsplit := splitLoop_inv A bor i
        { s with
          blockOrder := setOrder left (bor : Int) s.blockOrder
          free_area := list_del i left s.free_area }
        left h12 hbi hi20 hllt hlal
        (fun p' => hinv.ba_eq p')
        (by
          intro o ho
          show list_del i left s.free_area o = []
          rw [list_del_other (by omega)]
          exact hinv.fa_lo o ho)
        (by
          intro o ho
          show list_del i left s.free_area o = []
          rw [list_del_other (by omega)]
          exact hinv.fa_hi o ho)
        (by
          intro o p' hp'
          have hp2 : p' ∈ list_del i left s.free_area o := hp'
          by_cases ho : o = i
          · subst ho
            rw [list_del_same] at hp2
            exact hinv.fa_mem o p' (List.mem_of_mem_erase hp2)
          · rw [list_del_other ho] at hp2
            exact hinv.fa_mem o p' hp2)
        (by
          intro ao hao
          show setOrder left (bor : Int) s.blockOrder (ADDR_TO_PAGE ao.1) = (ao.2 : Int)
          have hne2 : ADDR_TO_PAGE ao.1 ≠ left := by
            intro hcontra
            apply allocCount_zero hzl ao hao
            rw [hcontra]
            exact covers_self _ _
          simp only [setOrder]
          rw [if_neg hne2]
          exact hinv.alloc_mem ao hao |>.2.2.2.2)
        (by
          intro q hq
          show totalCount (list_del i left s.free_area) A q + _ = 1
          unfold totalCount
          have hdel := freeCount_del s.free_area q left i (by omega) hi20 hlmem
          have h0 := hinv.cover q hq
          unfold totalCount at h0
          omega)
        (by
          show setOrder left (bor : Int) s.blockOrder left = (bor : Int)
          simp [setOrder])
      obtain ⟨hC1, hC2, hC3, hC4, hC5, hC6, hC7⟩ := hsplit
      have hat : a = PAGE_TO_ADDR left ∧
          t = splitLoop (PAGE_TO_ADDR left) bor i
            { s with
              blockOrder := setOrder left (bor : Int) s.blockOrder
              free_area := list_del i left s.free_area } := by
        have := h
        simp only [Except.ok.injEq, Prod.mk.injEq, Option.some.injEq] at this
        exact ⟨this.1.symm, this.2.symm⟩
      obtain ⟨ha, ht⟩ := hat
      subst ha ht
      refine ⟨hC1, hC2, hC3, hC4, ?_, ?_⟩
      · intro ao hao
        rcases List.mem_cons.mp hao with hh | hh
        · subst hh
          refine ⟨h12, by omega, page_lt_addr hllt, ?_, ?_⟩
          · exact page_dvd_addr h12 (dvd_trans (pow_dvd_pow 2 (by omega)) hlal)
          · rw [page_roundtrip]
            exact hC7
        · obtain ⟨hm1, hm2, hm3, hm4, -⟩ := hinv.alloc_mem ao hh
          exact ⟨hm1, hm2, hm3, hm4, hC5 ao hh⟩
      · intro q hq
        unfold totalCount
        rw [allocCount_cons, page_roundtrip]
        have h0 := hC6 q hq
        unfold totalCount at h0
        omega

lemma buddy_alloc_none_eq {size : Nat} {s t : BuddyState}
    (h : buddy_alloc size s = .ok (none, t)) : t = s := by
  rw [show buddy_alloc size s = (if ceilLog2 size > MAX_ORDER then .ok (none, s)
    else allocLoop (ceilLog2 size) (MAX_ORDER + 1 - ceilLog2 size) (ceilLog2 size) s)
    from rfl] at h
  split at h
  · simp only [Except.ok.injEq, Prod.mk.injEq, true_and] at h
    exact h.symm
  · exact allocLoop_none_eq _ _ _ _ _ h

/-- A successful allocation preserves the invariant, adding the returned
address at the computed order to the ghost list. -/
lemma alloc_some_pres {s : BuddyState} {A : List (Nat × Nat)} {size a : Nat} {t : BuddyState}
    (hinv : BuddyInv s A) (h : buddy_alloc size s = .ok (some a, t)) :
    BuddyInv t ((a, ceilLog2 size) :: A) := by
  have e1 : MIN_ORDER = 12 := rfl
  have e2 : MAX_ORDER = 20 := rfl
  rw [show buddy_alloc size s = (if ceilLog2 size > MAX_ORDER then .ok (none, s)
    else allocLoop (ceilLog2 size) (MAX_ORDER + 1 - ceilLog2 size) (ceilLog2 size) s)
    from rfl] at h
  split at h
  · exact absurd h (by simp)
  · have hb20 : ceilLog2 size ≤ MAX_ORDER := by omega
    have hb12 : MIN_ORDER ≤ ceilLog2 size := by
      by_contra hcon
      obtain ⟨fuel, hfuel⟩ : ∃ f, MAX_ORDER + 1 - ceilLog2 size = f + 1 :=
        ⟨MAX_ORDER - ceilLog2 size, by omega⟩
      rw [hfuel, allocLoop_succ_low _ _ _ (by omega)] at h
      exact absurd h (by simp)
    exact allocLoop_some_inv A (ceilLog2 size) _ _ s a t hinv hb12 le_rfl (by omega) h

/-- Freeing a live allocation succeeds and preserves the invariant, removing
the allocation from the ghost list. -/
lemma free_pres {s : BuddyState} {A : List (Nat × Nat)} {a o : Nat}
    (hinv : BuddyInv s A) (hmem : (a, o) ∈ A) :
    ∃ t, buddy_free a s = .ok t ∧ BuddyInv t (A.erase (a, o)) := by
  have e1 : MIN_ORDER = 12 := rfl
  have e2 : MAX_ORDER = 20 := rfl
  have eN : NPAGES = 256 := rfl
  obtain ⟨ho12, ho20, halt, hoal, hbo⟩ := hinv.alloc_mem (a, o) hmem
  dsimp only at ho12 ho20 halt hoal hbo
  have hpd : PAGE_SIZE ∣ a := dvd_trans (pow_dvd_pow 2 ho12) hoal
  have hfp4 : PAGE_TO_ADDR (ADDR_TO_PAGE a) = a := addr_roundtrip hpd
  have hfplt : ADDR_TO_PAGE a < NPAGES := by
    by_contra hcon
    have hge : (2 : Nat) ^ MAX_ORDER ≤ a := by
      calc (2 : Nat) ^ MAX_ORDER = NPAGES * PAGE_SIZE := by decide
        _ ≤ ADDR_TO_PAGE a * PAGE_SIZE := Nat.mul_le_mul_right _ (by omega)
        _ = a := hfp4
    omega
  have hfpal : 2 ^ (o - MIN_ORDER) ∣ ADDR_TO_PAGE a := by
    obtain ⟨c, hc⟩ := hoal
    refine ⟨c, ?_⟩
    show a / PAGE_SIZE = 2 ^ (o - MIN_ORDER) * c
    rw [hc, pow_split ho12,
      show 2 ^ (o - MIN_ORDER) * PAGE_SIZE * c = 2 ^ (o - MIN_ORDER) * c * PAGE_SIZE by ring,
      Nat.mul_div_cancel _ (by decide)]
  have hcov' : ∀ q, q < NPAGES → totalCount s.free_area (A.erase (a, o)) q +
      (if coversB (ADDR_TO_PAGE a, o) q then 1 else 0) = 1 := by
    intro q hq
    have h0 := hinv.cover q hq
    unfold totalCount at h0 ⊢
    have her := allocCount_erase hmem q
    omega
  have hC := freeLoop_inv s.blockAddress hinv.ba_eq (A.erase (a, o))
    (MAX_ORDER - o) o (ADDR_TO_PAGE a) s.free_area ho12 (by omega) hfplt hfpal
    hinv.fa_lo hinv.fa_hi hinv.fa_mem hcov'
  obtain ⟨hC1, hC2, hC3, hC4, hC5, hC6, hC7, hC8⟩ := hC
  refine ⟨_, buddy_free_run a s o hbo, ?_⟩
  set r := freeLoop s.blockAddress (MAX_ORDER - o) (ADDR_TO_PAGE a) o s.free_area with hr
  -- the final inserted block head is covered by the hole, so it is not the
  -- head of any remaining allocation
  have hrc := hC8 r.1 (by omega)
  rw [if_pos (covers_self _ _)] at hrc
  have hzr : allocCount (A.erase (a, o)) r.1 = 0 := by
    unfold totalCount at hrc
    omega
  refine ⟨hinv.ba_eq, ?_, ?_, ?_, ?_, ?_⟩
  · intro o' ho'
    show list_add r.2.1 r.1 r.2.2 o' = []
    rw [list_add_other (by omega)]
    exact hC5 o' ho'
  · intro o' ho'
    show list_add r.2.1 r.1 r.2.2 o' = []
    rw [list_add_other (by omega)]
    exact hC6 o' ho'
  · intro o' p' hp'
    have hp2 : p' ∈ list_add r.2.1 r.1 r.2.2 o' := hp'
    by_cases ho' : o' = r.2.1
    · subst ho'
      rw [list_add_same] at hp2
      rcases List.mem_cons.mp hp2 with hh | hh
      · subst hh
        exact ⟨hC3, hC4⟩
      · exact hC7 _ p' hh
    · rw [list_add_other ho'] at hp2
      exact hC7 o' p' hp2
  · intro ao hao
    have hao' : ao ∈ A := List.mem_of_mem_erase hao
    obtain ⟨hm1, hm2, hm3, hm4, hm5⟩ := hinv.alloc_mem ao hao'
    refine ⟨hm1, hm2, hm3, hm4, ?_⟩
    show setOrder r.1 (r.2.1 : Int) s.blockOrder (ADDR_TO_PAGE ao.1) = (ao.2 : Int)
    have hne2 : ADDR_TO_PAGE ao.1 ≠ r.1 := by
      intro hcontra
      apply allocCount_zero hzr ao hao
      rw [hcontra]
      exact covers_self _ _
    simp only [setOrder]
    rw [if_neg hne2]
    exact hm5
  · intro q hq
    show totalCount (list_add r.2.1 r.1 r.2.2) (A.erase (a, o)) q = 1
    unfold totalCount
    rw [freeCount_add _ q r.1 r.2.1 hC1 hC2]
    have h0 := hC8 q hq
    unfold totalCount at h0
    omega

/-- Every reachable state satisfies the invariant. -/
lemma reach_inv {s : BuddyState} {A : List (Nat × Nat)} (h : Reach s A) : BuddyInv s A := by
  induction h with
  | init => exact inv_init
  | allocSome hr hstep ih => exact alloc_some_pres ih hstep
  | allocNone hr hstep ih =>
    rw [buddy_alloc_none_eq hstep]
    exact ih
  | free hr hmem hstep ih =>
    obtain ⟨t', hok, hinv'⟩ := free_pres ih hmem
    rw [hstep] at hok
    injection hok with hok
    rw [hok]
    exact hinv'

lemma buddy_free_from (addr : Nat) (s : BuddyState) (i : Nat)
    (hbo : s.blockOrder (ADDR_TO_PAGE addr) = (i : Int)) :
    buddy_free addr s = .ok (freeFrom addr i s) :=
  buddy_free_run addr s i hbo

/-- Source inversion for a successful scan: the returned address is the head
of the first non-empty scanned free list. -/
lemma allocLoop_some_src :
    ∀ fuel i bor (s : BuddyState) a t, allocLoop bor fuel i s = .ok (some a, t) →
      ∃ i' left rest, i ≤ i' ∧ i' < i + fuel ∧ MIN_ORDER ≤ i' ∧
        s.free_area i' = left :: rest ∧ a = s.blockAddress left := by
  intro fuel
  induction fuel with
  | zero =>
    intro i bor s a t h
    exact absurd h (by simp [allocLoop])
  | succ fuel ih =>
    intro i bor s a t h
    by_cases hge : i < MIN_ORDER
    · rw [allocLoop_succ_low bor fuel s hge] at h
      exact absurd h (by simp)
    · cases hfa : s.free_area i with
      | nil =>
        rw [allocLoop_succ_nil bor fuel s hge hfa] at h
        obtain ⟨i', left, rest, h1, h2, h3, h4, h5⟩ := ih (i + 1) bor s a t h
        exact ⟨i', left, rest, by omega, by omega, h3, h4, h5⟩
      | cons left rest =>
        rw [allocLoop_succ_cons bor fuel hge hfa] at h
        simp only [Except.ok.injEq, Prod.mk.injEq, Option.some.injEq] at h
        exact ⟨i, left, rest, le_rfl, by omega, by omega, hfa, h.1.symm⟩

/-- C8: in every state reachable by a valid operation sequence (with ghost
list `A` of live allocations): each page descriptor is linked into at most
one free list, and into each at most once; every free block's base address is
aligned to its own size `2^order`; the region's pages are exactly partitioned
between the free blocks and the live allocated blocks (every page is covered
by exactly one of them — no gaps, no overlaps); and consequently the address
returned by any successful `buddy_alloc` from such a state is not a live
allocated address. -/
theorem reach_invariants (s : BuddyState) (A : List (Nat × Nat)) (h : Reach s A) :
    (∀ o o' p, p ∈ s.free_area o → p ∈ s.free_area o' → o = o') ∧
    (∀ o, (s.free_area o).Nodup) ∧
    (∀ o p, p ∈ s.free_area o → 2 ^ o ∣ PAGE_TO_ADDR p) ∧
    (∀ q, q < NPAGES → totalCount s.free_area A q = 1) ∧
    (∀ size a t, buddy_alloc size s = .ok (some a, t) → ∀ o', (a, o') ∉ A) := by
  have hinv := reach_inv h
  have e1 : MIN_ORDER = 12 := rfl
  have e2 : MAX_ORDER = 20 := rfl
  have eN : NPAGES = 256 := rfl
  have hrange : ∀ o p, p ∈ s.free_area o → MIN_ORDER ≤ o ∧ o ≤ MAX_ORDER := by
    intro o p hp
    constructor
    · by_contra hc
      rw [hinv.fa_lo o (by omega)] at hp
      exact absurd hp (List.not_mem_nil p)
    · by_contra hc
      rw [hinv.fa_hi o (by omega)] at hp
      exact absurd hp (List.not_mem_nil p)
  refine ⟨?_, ?_, ?_, hinv.cover, ?_⟩
  · intro o o' p hpo hpo'
    by_contra hne
    obtain ⟨ho1, ho2⟩ := hrange o p hpo
    obtain ⟨ho1', ho2'⟩ := hrange o' p hpo'
    have hc1 : 1 ≤ (s.free_area o).countP fun p' => coversB (p', o) p :=
      List.countP_pos_iff.mpr ⟨p, hpo, covers_self _ _⟩
    have hc2 : 1 ≤ (s.free_area o').countP fun p' => coversB (p', o') p :=
      List.countP_pos_iff.mpr ⟨p, hpo', covers_self _ _⟩
    have htwo := freeCount_two s.free_area p o o' ho1 ho2 ho1' ho2' hne
    have hlt := (hinv.fa_mem o p hpo).1
    have hcov := hinv.cover p (by omega)
    unfold totalCount at hcov
    omega
  · intro o
    by_cases hr : MIN_ORDER ≤ o ∧ o ≤ MAX_ORDER
    · rw [List.nodup_iff_count_le_one]
      intro p
      by_contra hc
      have hcnt : 2 ≤ (s.free_area o).count p := by omega
      have hpm : p ∈ s.free_area o := List.count_pos_iff.mp (by omega)
      have hmono : (s.free_area o).count p ≤
          (s.free_area o).countP fun p' => coversB (p', o) p := by
        rw [List.count_eq_countP]
        refine List.countP_mono_left ?_
        intro x hx hbe
        have : x = p := eq_of_beq hbe
        subst this
        exact covers_self _ _
      have hone := freeCount_one s.free_area p o hr.1 hr.2
      have hlt := (hinv.fa_mem o p hpm).1
      have hcov := hinv.cover p (by omega)
      unfold totalCount at hcov
      omega
    · rcases Nat.lt_or_ge o MIN_ORDER with hc | hc
      · rw [hinv.fa_lo o hc]
        exact List.nodup_nil
      · rw [hinv.fa_hi o (by omega)]
        exact List.nodup_nil
  · intro o p hp
    exact page_dvd_addr (hrange o p hp).1 ((hinv.fa_mem o p hp).2)
  · intro size a t hstep o' hmemA
    have hb20 : ceilLog2 size ≤ MAX_ORDER := by
      by_contra hc
      rw [show buddy_alloc size s = .ok (none, s) from by
        rw [show buddy_alloc size s = (if ceilLog2 size > MAX_ORDER then .ok (none, s)
          else allocLoop (ceilLog2 size) (MAX_ORDER + 1 - ceilLog2 size) (ceilLog2 size) s)
          from rfl, if_pos (by omega)]] at hstep
      exact absurd hstep (by simp)
    have hstep' : allocLoop (ceilLog2 size) (MAX_ORDER + 1 - ceilLog2 size)
        (ceilLog2 size) s = .ok (some a, t) := by
      rw [show buddy_alloc size s = (if ceilLog2 size > MAX_ORDER then .ok (none, s)
        else allocLoop (ceilLog2 size) (MAX_ORDER + 1 - ceilLog2 size) (ceilLog2 size) s)
        from rfl, if_neg (by omega)] at hstep
      exact hstep
    obtain ⟨i', left, rest, hi1, hi2, hi3, hfa, ha⟩ := allocLoop_some_src _ _ _ _ _ _ hstep'
    have hlmem : left ∈ s.free_area i' := by
      rw [hfa]
      exact List.mem_cons_self _ _
    obtain ⟨hllt, -⟩ := hinv.fa_mem i' left hlmem
    have hi20' : i' ≤ MAX_ORDER := by omega
    have hpage : ADDR_TO_PAGE a = left := by
      rw [ha, hinv.ba_eq left, page_roundtrip]
    have hfc1 : 1 ≤ (s.free_area i').countP fun p' => coversB (p', i') left :=
      List.countP_pos_iff.mpr ⟨left, hlmem, covers_self _ _⟩
    have hfc2 := freeCount_one s.free_area left i' hi3 hi20'
    have hac : 1 ≤ allocCount A left := by
      refine List.countP_pos_iff.mpr ⟨(a, o'), hmemA, ?_⟩
      show coversB (ADDR_TO_PAGE a, o') left = true
      rw [hpage]
      exact covers_self _ _
    have hcov := hinv.cover left (by omega)
    unfold totalCount at hcov
    omega

/-- Witness for `reach_invariants`: the post-init state with no live
allocations. -/
theorem reach_invariants_witness :
    Reach buddy_init [] ∧
    ((∀ o o' p, p ∈ buddy_init.free_area o → p ∈ buddy_init.free_area o' → o = o') ∧
     (∀ o, (buddy_init.free_area o).Nodup) ∧
     (∀ o p, p ∈ buddy_init.free_area o → 2 ^ o ∣ PAGE_TO_ADDR p) ∧
     (∀ q, q < NPAGES → totalCount buddy_init.free_area [] q = 1) ∧
     (∀ size a t, buddy_alloc size buddy_init = .ok (some a, t) →
       ∀ o', (a, o') ∉ ([] : List (Nat × Nat)))) :=
  ⟨Reach.init, reach_invariants buddy_init [] Reach.init⟩

/-- C10: for every live allocation `(a, o)` of a reachable state, the head
page's `blockOrder` field still holds the order `o` recorded at allocation
time (no operation on other blocks has changed it), the head page is linked
into no free list, and `buddy_free a` reads exactly this field: it runs the
merge loop starting at order `o`. -/
theorem allocated_order_field (s : BuddyState) (A : List (Nat × Nat)) (h : Reach s A)
    (a o : Nat) (hmem : (a, o) ∈ A) :
    s.blockOrder (ADDR_TO_PAGE a) = (o : Int) ∧
    (∀ o', ADDR_TO_PAGE a ∉ s.free_area o') ∧
    buddy_free a s = .ok (freeFrom a o s) := by
  have hinv := reach_inv h
  have e1 : MIN_ORDER = 12 := rfl
  have e2 : MAX_ORDER = 20 := rfl
  have eN : NPAGES = 256 := rfl
  obtain ⟨ho12, ho20, halt, hoal, hbo⟩ := hinv.alloc_mem (a, o) hmem
  dsimp only at ho12 ho20 halt hoal hbo
  have hpd : PAGE_SIZE ∣ a := dvd_trans (pow_dvd_pow 2 ho12) hoal
  have hfp4 : PAGE_TO_ADDR (ADDR_TO_PAGE a) = a := addr_roundtrip hpd
  have hfplt : ADDR_TO_PAGE a < NPAGES := by
    by_contra hcon
    have hge : (2 : Nat) ^ MAX_ORDER ≤ a := by
      calc (2 : Nat) ^ MAX_ORDER = NPAGES * PAGE_SIZE := by decide
        _ ≤ ADDR_TO_PAGE a * PAGE_SIZE := Nat.mul_le_mul_right _ (by omega)
        _ = a := hfp4
    omega
  refine ⟨hbo, ?_, buddy_free_from a s o hbo⟩
  intro o' hmem'
  obtain ⟨ho1', ho2'⟩ : MIN_ORDER ≤ o' ∧ o' ≤ MAX_ORDER := by
    constructor
    · by_contra hc
      rw [hinv.fa_lo o' (by omega)] at hmem'
      exact absurd hmem' (List.not_mem_nil _)
    · by_contra hc
      rw [hinv.fa_hi o' (by omega)] at hmem'
      exact absurd hmem' (List.not_mem_nil _)
  have hfc1 : 1 ≤ (s.free_area o').countP fun p' => coversB (p', o') (ADDR_TO_PAGE a) :=
    List.countP_pos_iff.mpr ⟨ADDR_TO_PAGE a, hmem', covers_self _ _⟩
  have hfc2 := freeCount_one s.free_area (ADDR_TO_PAGE a) o' ho1' ho2'
  have hac : 1 ≤ allocCount A (ADDR_TO_PAGE a) :=
    List.countP_pos_iff.mpr ⟨(a, o), hmem, covers_self _ _⟩
  have hcov := hinv.cover (ADDR_TO_PAGE a) (by omega)
  unfold totalCount at hcov
  omega

/-- Witness for `allocated_order_field`: the block at address 0 allocated at
order `MIN_ORDER` by the first allocation after init. -/
theorem allocated_order_field_witness :
    ((0, MIN_ORDER) ∈ [((0 : Nat), MIN_ORDER)]) ∧
    st1.blockOrder (ADDR_TO_PAGE 0) = (MIN_ORDER : Int) ∧
    (∀ o', ADDR_TO_PAGE 0 ∉ st1.free_area o') ∧
    buddy_free 0 st1 = .ok (freeFrom 0 MIN_ORDER st1) :=
  ⟨List.mem_cons_self _ _,
    allocated_order_field st1 [(0, MIN_ORDER)]
      (Reach.allocSome Reach.init (show buddy_alloc PAGE_SIZE buddy_init = .ok (some 0, st1)
        from rfl))
      0 MIN_ORDER (List.mem_cons_self _ _)⟩

/-- C1 (amended): from any reachable state, a successful `buddy_alloc size`
returns an address inside the region aligned to `2^(ceilLog2 size)` — whose
exponent is in particular at least `MIN_ORDER`, although the code computes it
with no lower clamp: for every size of at most `2^(MIN_ORDER - 1)` bytes
(where the unclamped order would be below `MIN_ORDER`) the allocation does
not succeed at all — its scan starts below `MIN_ORDER` and faults on a
never-initialized free-list head (undefined behavior, `.error ()`). -/
theorem alloc_aligned_in_region (s : BuddyState) (A : List (Nat × Nat)) (h : Reach s A) :
    (∀ size a t, buddy_alloc size s = .ok (some a, t) →
      a < 2 ^ MAX_ORDER ∧ 2 ^ ceilLog2 size ∣ a ∧ MIN_ORDER ≤ ceilLog2 size) ∧
    (∀ size, size ≤ 2 ^ (MIN_ORDER - 1) → buddy_alloc size s = .error ()) := by
  have e1 : MIN_ORDER = 12 := rfl
  have e2 : MAX_ORDER = 20 := rfl
  constructor
  · intro size a t hstep
    have hinv' := alloc_some_pres (reach_inv h) hstep
    have hh := hinv'.alloc_mem (a, ceilLog2 size) (List.mem_cons_self _ _)
    dsimp only at hh
    exact ⟨hh.2.2.1, hh.2.2.2.1, hh.1⟩
  · intro size hsize
    have hb : ceilLog2 size ≤ MIN_ORDER - 1 := ceilLog2_le hsize
    rw [show buddy_alloc size s = (if ceilLog2 size > MAX_ORDER then .ok (none, s)
      else allocLoop (ceilLog2 size) (MAX_ORDER + 1 - ceilLog2 size) (ceilLog2 size) s)
      from rfl, if_neg (by omega)]
    obtain ⟨fuel, hfuel⟩ : ∃ f, MAX_ORDER + 1 - ceilLog2 size = f + 1 :=
      ⟨MAX_ORDER - ceilLog2 size, by omega⟩
    rw [hfuel]
    exact allocLoop_succ_low _ _ _ (by omega)

/-- Witness for `alloc_aligned_in_region`: the first minimum-size allocation
after init returns the in-region, aligned address 0, and `buddy_alloc 1`
faults. -/
theorem alloc_aligned_in_region_witness :
    ((0 : Nat) < 2 ^ MAX_ORDER ∧ 2 ^ ceilLog2 PAGE_SIZE ∣ 0 ∧ MIN_ORDER ≤ ceilLog2 PAGE_SIZE) ∧
    buddy_alloc 1 buddy_init = .error () :=
  ⟨(alloc_aligned_in_region buddy_init [] Reach.init).1 PAGE_SIZE 0 st1 rfl,
   (alloc_aligned_in_region buddy_init [] Reach.init).2 1 (by decide)⟩
